import Mathlib

/-!
Verification of the voxel-editor core: grid coordinate system
(src/core/VoxelGridSystem.js), grid block registry (src/modeling/GridBlockSystem.js),
voxel extruder (VoxelExtruder in src/modeling/CSGOperations.js), and the
command history (src/state/UndoManager.js, src/state/Command.js, ExtrudeCommand).

World coordinates are modelled as exact rationals; grid coordinates as integers.
JavaScript `Math.round` is modelled by `jsRound` below (ECMA-262: the integer
closest to the argument, halves rounded toward positive infinity).
-/

namespace VoxelEditor

/-- Integer grid position {x, y, z} (the code keeps these integral at all times). -/
structure GridPos where
  x : ℤ
  y : ℤ
  z : ℤ
  deriving DecidableEq, Repr

/-- World position {x, y, z}, modelled with exact rational coordinates. -/
structure Vec3 where
  x : ℚ
  y : ℚ
  z : ℚ
  deriving DecidableEq, Repr

/-- ECMA-262 `Math.round`: the closest integer, with exact halves rounded toward
positive infinity. -/
def jsRound (q : ℚ) : ℤ := ⌊q + 1/2⌋

/-- One axis of `VoxelGridSystem.snapToGrid`:
`Math.round(worldPos.x / this.voxelSize) * this.voxelSize`. -/
def snapAxis (voxelSize : ℚ) (q : ℚ) : ℚ := (jsRound (q / voxelSize) : ℚ) * voxelSize

/-- `VoxelGridSystem.snapToGrid` (src/core/VoxelGridSystem.js lines 46-54):
each axis is `Math.round(axis / voxelSize) * voxelSize`. -/
def snapToGrid (voxelSize : ℚ) (p : Vec3) : Vec3 :=
  { x := snapAxis voxelSize p.x
    y := snapAxis voxelSize p.y
    z := snapAxis voxelSize p.z }

/-- Default voxel size of `VoxelGridSystem` (constructor default 3.0). -/
def defaultVoxelSize : ℚ := 3

/-- Round half away from zero, the rounding mode the spec ascribes to
`snapToGrid`.  Written from the spec's words ("round-half-away-from-zero"),
to be compared with the code's `jsRound`. -/
def roundHalfAwayFromZero (q : ℚ) : ℤ :=
  if 0 ≤ q then ⌊q + 1/2⌋ else -⌊-q + 1/2⌋

/-- Per-axis snapping as the spec describes it: the multiple of `voxelSize`
nearest to the value, halves away from zero. -/
def specSnapAxis (voxelSize : ℚ) (q : ℚ) : ℚ :=
  (roundHalfAwayFromZero (q / voxelSize) : ℚ) * voxelSize

/-! ### getLinePositions (3D Bresenham, src/core/VoxelGridSystem.js lines 234-319)

Each of the three dominant-axis branches of the source runs the same loop with
the axes renamed: push the current cell; step each secondary axis when its
error term is positive, updating the error; then step the driving axis.
`bresLoop` is that loop, written once over an abstract state
(u = driving axis, v = secondary axis 1, w = secondary axis 2); the three
branches of `getLinePositions` instantiate it with the axis renaming of the
source and reorder the produced triples back into (x, y, z).

The JS loop runs `while (u !== end.u)`; since u starts at start.u and moves by
su = ±1 toward end.u each iteration, it runs exactly |end.u - start.u| times,
which is the fuel given here. -/

/-- Error-term update of one secondary axis inside the loop body:
`if (err > 0) { err -= 2*dd; } err += 2*dk`. -/
def errStep (dd dk : ℤ) (e : ℤ) : ℤ := (if 0 < e then e - 2 * dd else e) + 2 * dk

/-- Position update of one secondary axis: `if (err > 0) { a += sk; }`. -/
def secApply (sk : ℤ) (a e : ℤ) : ℤ := if 0 < e then a + sk else a

/-- Combined (position, error) update of one secondary axis. -/
def secIter (dd dk sk : ℤ) (p : ℤ × ℤ) : ℤ × ℤ :=
  (secApply sk p.1 p.2, errStep dd dk p.2)

/-- The shared while-loop of the three branches: fuel counts remaining
iterations; state is (u, v, w) with error terms e1 (drives v) and e2
(drives w). -/
def bresLoop (dd d1 d2 su s1 s2 : ℤ) : Nat → ℤ → ℤ → ℤ → ℤ → ℤ → List (ℤ × ℤ × ℤ)
  | 0, _, _, _, _, _ => []
  | n + 1, u, v, w, e1, e2 =>
    (u, v, w) ::
      bresLoop dd d1 d2 su s1 s2 n (u + su) (secApply s1 v e1) (secApply s2 w e2)
        (errStep dd d1 e1) (errStep dd d2 e2)

/-- `VoxelGridSystem.getLinePositions`: 3D Bresenham traversal from `s` to `e`.
Branch selection, initial error terms, loop body and the final push of the end
position follow the source; see `bresLoop` for the loop. -/
def getLinePositions (s e : GridPos) : List GridPos :=
  let dx : ℤ := |e.x - s.x|
  let dy : ℤ := |e.y - s.y|
  let dz : ℤ := |e.z - s.z|
  let sx : ℤ := if s.x < e.x then 1 else -1
  let sy : ℤ := if s.y < e.y then 1 else -1
  let sz : ℤ := if s.z < e.z then 1 else -1
  if dx ≥ dy ∧ dx ≥ dz then
    ((bresLoop dx dy dz sx sy sz dx.toNat s.x s.y s.z (2 * dy - dx) (2 * dz - dx)).map
        (fun p => ⟨p.1, p.2.1, p.2.2⟩)) ++ [⟨e.x, e.y, e.z⟩]
  else if dy ≥ dx ∧ dy ≥ dz then
    ((bresLoop dy dx dz sy sx sz dy.toNat s.y s.x s.z (2 * dx - dy) (2 * dz - dy)).map
        (fun p => ⟨p.2.1, p.1, p.2.2⟩)) ++ [⟨e.x, e.y, e.z⟩]
  else
    ((bresLoop dz dy dx sz sy sx dz.toNat s.z s.y s.x (2 * dy - dz) (2 * dx - dz)).map
        (fun p => ⟨p.2.2, p.2.1, p.1⟩)) ++ [⟨e.x, e.y, e.z⟩]

/-- Value of one secondary axis after `i` loop iterations, starting from the
initial error term `2*dk - dd` used by the source. -/
def secVal (dd dk sk a0 : ℤ) (i : Nat) : ℤ :=
  ((secIter dd dk sk)^[i] (a0, 2 * dk - dd)).1

/-- Relation between consecutive cells of a line: they differ by at most one
on every axis (8-connectivity, no gaps). -/
def adjStep (p q : GridPos) : Prop :=
  |q.x - p.x| ≤ 1 ∧ |q.y - p.y| ≤ 1 ∧ |q.z - p.z| ≤ 1

/-- The guarantees the spec makes for a line from `s` to `e` whose dominant
delta is `n`: exactly n+1 cells, starting at `s`, ending at `e`, no
duplicates, consecutive cells differing by at most 1 per axis. -/
def LineSpec (s e : GridPos) (n : ℕ) : Prop :=
  (getLinePositions s e).length = n + 1 ∧
  (getLinePositions s e).head? = some s ∧
  (getLinePositions s e).getLast? = some e ∧
  (getLinePositions s e).Nodup ∧
  (getLinePositions s e).Chain' adjStep

/-! ### Association-list model of a JavaScript Map

`GridBlockSystem.blocks` and the collision registry are JS `Map`s keyed by the
string `"x,y,z"` built from the integer components of a grid position.  That
decimal string is an injective encoding of the integer triple, so the key is
modelled by the triple itself (`getGridKey` below), and the `Map` by an
insertion-ordered association list with unique keys: `set` replaces in place
or appends, `delete` removes the entry, `get` finds it. -/

/-- A voxel / block mesh: object identity (`id`) plus the grid cell recorded
in its `userData.gridPosition`. -/
structure Voxel where
  id : Nat
  pos : GridPos
  deriving DecidableEq, Repr

/-- JS `Map.get`. -/
def mapGet : List (GridPos × Voxel) → GridPos → Option Voxel
  | [], _ => none
  | kv :: rest, k => if kv.1 = k then some kv.2 else mapGet rest k

/-- JS `Map.set`: replace in place if the key exists, else append. -/
def mapSet : List (GridPos × Voxel) → GridPos → Voxel → List (GridPos × Voxel)
  | [], k, v => [(k, v)]
  | kv :: rest, k, v => if kv.1 = k then (k, v) :: rest else kv :: mapSet rest k v

/-- JS `Map.delete`. -/
def mapDelete : List (GridPos × Voxel) → GridPos → List (GridPos × Voxel)
  | [], _ => []
  | kv :: rest, k => if kv.1 = k then rest else kv :: mapDelete rest k

/-! ### GridBlockSystem (src/modeling/GridBlockSystem.js)

`gridSize` is 1.0 and every position entering the system is snapped, so block
positions are integer vectors and `getGridKey`'s rounding is the identity on
them. Preview meshes are tracked in `previewBlocks` (in the scene they are
separate tagged objects); `scene` holds the solid block meshes. -/

/-- `GridBlockSystem.getGridKey`: the source builds the string `"x,y,z"`; the
key is modelled by the triple it injectively encodes. -/
def getGridKey (p : GridPos) : GridPos := p

/-- `GridBlockSystem.maxBlocks` (constructor: `this.maxBlocks = 1000`,
commented "Limit total blocks"). -/
def maxBlocks : Nat := 1000

/-- State of a `GridBlockSystem` plus the scene contents it manages. -/
structure GBS where
  blocks : List (GridPos × Voxel)
  scene : List Voxel
  previewBlocks : List GridPos
  isCreating : Bool
  nextId : Nat
  deriving DecidableEq, Repr

/-- A fresh `GridBlockSystem` with an empty scene. -/
def GBS.init : GBS := ⟨[], [], [], false, 0⟩

/-- `GridBlockSystem.isOccupied`. -/
def isOccupied (blocks : List (GridPos × Voxel)) (p : GridPos) : Bool :=
  (mapGet blocks (getGridKey p)).isSome

/-- `GridBlockSystem.isTouchingExisting`: any of the 6 face-adjacent cells
occupied. -/
def isTouchingExisting (blocks : List (GridPos × Voxel)) (p : GridPos) : Bool :=
  isOccupied blocks ⟨p.x + 1, p.y, p.z⟩ || isOccupied blocks ⟨p.x - 1, p.y, p.z⟩ ||
  isOccupied blocks ⟨p.x, p.y + 1, p.z⟩ || isOccupied blocks ⟨p.x, p.y - 1, p.z⟩ ||
  isOccupied blocks ⟨p.x, p.y, p.z + 1⟩ || isOccupied blocks ⟨p.x, p.y, p.z - 1⟩

/-- Integer interval `[a, b]`, the cells visited by
`for (v = a; v <= b; v += gridSize)` with gridSize 1. -/
def rangeZ (a b : ℤ) : List ℤ :=
  (List.range (b - a + 1).toNat).map (fun (i : ℕ) => a + (i : ℤ))

/-- Cells of the axis-aligned box spanned by two corners, in the x-outer,
y-middle, z-inner order of the source's nested loops. -/
def volumeCells (c1 c2 : GridPos) : List GridPos :=
  (rangeZ (min c1.x c2.x) (max c1.x c2.x)).flatMap (fun x =>
    (rangeZ (min c1.y c2.y) (max c1.y c2.y)).flatMap (fun y =>
      (rangeZ (min c1.z c2.z) (max c1.z c2.z)).map (fun z => ⟨x, y, z⟩)))

/-- `GridBlockSystem.clearPreview`: removes the preview meshes, nothing else. -/
def clearPreview (w : GBS) : GBS := { w with previewBlocks := [] }

/-- `GridBlockSystem.updateVolumePreview` with the current corner pair:
clears the old preview, then previews every box cell that is unoccupied and
(first block, or touching an existing block). -/
def updateVolumePreview (c1 c2 : GridPos) (w : GBS) : GBS :=
  let w1 := clearPreview w
  { w1 with previewBlocks :=
      (volumeCells c1 c2).filter (fun p =>
        !isOccupied w1.blocks p &&
          (decide (w1.blocks.length = 0) || isTouchingExisting w1.blocks p)) }

/-- One iteration of `finalizeVolume`'s loop: create a solid block mesh at a
preview position, add it to the scene, and `blocks.set` it under its key. -/
def addSolidBlock (w : GBS) (p : GridPos) : GBS :=
  let b : Voxel := ⟨w.nextId, p⟩
  { w with scene := w.scene ++ [b],
           blocks := mapSet w.blocks (getGridKey p) b,
           nextId := w.nextId + 1 }

/-- `GridBlockSystem.finalizeVolume`: no-op (except the flag) when the preview
is empty, else converts every preview block to a solid registered block and
clears the preview. -/
def finalizeVolume (w : GBS) : GBS :=
  if w.previewBlocks.length = 0 then { w with isCreating := false }
  else
    let w' := w.previewBlocks.foldl addSolidBlock w
    { (clearPreview w') with isCreating := false }

/-- One complete volume-creation interaction: `updateVolumePreview` under the
final corner pair, then `finalizeVolume` on release (`GridBlockSystem.update`
drives exactly this pair of calls). -/
def createVolume (c1 c2 : GridPos) (w : GBS) : GBS :=
  finalizeVolume (updateVolumePreview c1 c2 w)

/-- `GridBlockSystem.deleteBlock`. -/
def deleteBlock (p : GridPos) (w : GBS) : GBS :=
  match mapGet w.blocks (getGridKey p) with
  | some b => { w with scene := w.scene.erase b,
                       blocks := mapDelete w.blocks (getGridKey p) }
  | none => w

/-- `CreateBlockCommand.execute` (src/src/state/Command.js lines 47-53): for
each block, `scene.add(block)` then `blocks.set(key, block)` — with NO
occupancy check.  three.js `add` re-parents (removes any previous occurrence,
then appends). -/
def createBlockExec (bs : List Voxel) (w : GBS) : GBS :=
  bs.foldl (fun w b =>
    { w with scene := (w.scene.erase b) ++ [b],
             blocks := mapSet w.blocks (getGridKey b.pos) b }) w

/-- `CreateBlockCommand.undo`: `blocks.delete(key)` then `scene.remove`. -/
def createBlockUndo (bs : List Voxel) (w : GBS) : GBS :=
  bs.foldl (fun w b =>
    { w with blocks := mapDelete w.blocks (getGridKey b.pos),
             scene := w.scene.erase b }) w

/-- Registry operations of the volume-creation / deletion paths. -/
inductive VolOp
  | create (c1 c2 : GridPos)
  | preview (c1 c2 : GridPos)
  | clearPrev
  | deleteAt (p : GridPos)

/-- Interpretation of `VolOp`. -/
def applyVolOp (w : GBS) : VolOp → GBS
  | .create c1 c2 => createVolume c1 c2 w
  | .preview c1 c2 => updateVolumePreview c1 c2 w
  | .clearPrev => clearPreview w
  | .deleteAt p => deleteBlock p w

/-- The registry invariant of the spec: no two scene voxels share a grid key;
an entry exists under key K exactly when a voxel occupies the cell K encodes,
and that entry is that voxel.  The first component records that the JS `Map`
holds each key once. -/
def RegistryInv (w : GBS) : Prop :=
  (w.blocks.map Prod.fst).Nodup ∧
  w.scene.Pairwise (fun b b' => getGridKey b.pos ≠ getGridKey b'.pos) ∧
  (∀ k b, mapGet w.blocks k = some b → b ∈ w.scene ∧ getGridKey b.pos = k) ∧
  (∀ b ∈ w.scene, mapGet w.blocks (getGridKey b.pos) = some b)

/-! ### The voxel collision registry (spec-modelled) and VoxelExtruder

Modelled from the spec: the collision system (`canPlaceVoxel`,
`registerVoxel`, `unregisterVoxel`, `getVoxelAt`) used by `VoxelExtruder`,
`ExtrudeCommand` and `MoveCommand` is not among the provided sources — only
its callers are.  Spec section 4.2 gives its contract: `canPlace` is false if
the cell is occupied or the voxel count has reached the configured maximum
(`maxVoxelCount`, default 1000); `register` fails as a no-op if the cell is
occupied by a different voxel, otherwise inserts; `unregister` removes the
entry, no-op if absent; `get` returns the voxel or absent. -/

/-- Modelled from the spec: the collision registry state. -/
structure VCS where
  voxels : List (GridPos × Voxel)
  maxVoxelCount : Nat
  deriving DecidableEq, Repr

/-- Modelled from the spec: `canPlace(gridPos)` — false if occupied, or if the
voxel count has reached the configured maximum; otherwise true. -/
def canPlaceVoxel (s : VCS) (p : GridPos) : Bool :=
  !(mapGet s.voxels p).isSome && decide (s.voxels.length < s.maxVoxelCount)

/-- Modelled from the spec: `register(voxel, gridPos)` — fails (no-op) if the
cell is already occupied by a different voxel; otherwise inserts. -/
def registerVoxel (s : VCS) (v : Voxel) (p : GridPos) : VCS :=
  match mapGet s.voxels p with
  | some v' => if v' = v then { s with voxels := mapSet s.voxels p v } else s
  | none => { s with voxels := mapSet s.voxels p v }

/-- Modelled from the spec: `unregister(gridPos)` — removes the entry; no-op
if absent. -/
def unregisterVoxel (s : VCS) (p : GridPos) : VCS :=
  { s with voxels := mapDelete s.voxels p }

/-- Modelled from the spec: `get(gridPos)`. -/
def getVoxelAt (s : VCS) (p : GridPos) : Option Voxel :=
  mapGet s.voxels p

/-- World state handled by `VoxelExtruder` and the commands: collision
registry, solid scene meshes, extrusion preview meshes, and a counter
providing fresh mesh identities. -/
structure XWorld where
  vcs : VCS
  scene : List Voxel
  extrusionPreview : List (GridPos × Bool)
  isExtruding : Bool
  nextId : Nat
  deriving DecidableEq, Repr

/-- An extruder world over an empty registry with the default maximum. -/
def XWorld.init : XWorld := ⟨⟨[], 1000⟩, [], [], false, 0⟩

/-- `faceData` as consumed by `VoxelExtruder.extrude`: the source voxel's grid
position and the face's outward direction. -/
structure FaceData where
  gridPosition : GridPos
  direction : GridPos
  deriving DecidableEq, Repr

/-- Cell visited at step `i` of the extrusion walk:
`gridPosition + direction * offset` with `offset = distance > 0 ? i : -i`. -/
def extrudeCell (f : FaceData) (distance : ℤ) (i : ℕ) : GridPos :=
  let offset : ℤ := if 0 < distance then (i : ℤ) else -(i : ℤ)
  ⟨f.gridPosition.x + f.direction.x * offset,
   f.gridPosition.y + f.direction.y * offset,
   f.gridPosition.z + f.direction.z * offset⟩

/-- Result object of `VoxelExtruder.extrude`.  The failure object of the
source carries only `success: false` and the reason; it is modelled with
empty `voxels` and count 0. -/
structure ExtrudeResult where
  success : Bool
  reason : Option String
  voxels : List Voxel
  count : Nat
  deriving DecidableEq, Repr

/-- The extrusion loop: `i` is the current step index, fuel the remaining
steps of `for (i = 1; i <= Math.abs(distance); i++)`.  At each step: compute
the cell, check `canPlaceVoxel`; if blocked, break; else create a voxel, add
it to the scene, and register it. -/
def extrudeGo (f : FaceData) (d : ℤ) : Nat → Nat → XWorld → List Voxel →
    List Voxel × XWorld
  | _, 0, w, acc => (acc, w)
  | i, fuel + 1, w, acc =>
    let newPos := extrudeCell f d i
    if canPlaceVoxel w.vcs newPos then
      let v : Voxel := ⟨w.nextId, newPos⟩
      extrudeGo f d (i + 1) fuel
        { w with vcs := registerVoxel w.vcs v newPos,
                 scene := w.scene ++ [v],
                 nextId := w.nextId + 1 }
        (acc ++ [v])
    else (acc, w)

/-- `VoxelExtruder.extrude` (src/modeling/CSGOperations.js, VoxelExtruder
lines 116-161): zero distance fails with "zero-distance"; otherwise walks
steps 1..|distance| and reports the created voxels and their count. -/
def extrude (f : FaceData) (distance : ℤ) (w : XWorld) : ExtrudeResult × XWorld :=
  if distance = 0 then (⟨false, some "zero-distance", [], 0⟩, w)
  else
    let r := extrudeGo f distance 1 distance.natAbs w []
    (⟨true, none, r.1, r.1.length⟩, r.2)

/-- Preview cells of `VoxelExtruder.createPreview`: positions 1..|distance|
with the color flag from the (read-only) `canPlaceVoxel` query. -/
def createPreviewCells (f : FaceData) (d : ℤ) (s : VCS) : List (GridPos × Bool) :=
  (List.range d.natAbs).map (fun i =>
    ((extrudeCell f d (i + 1)), canPlaceVoxel s (extrudeCell f d (i + 1))))

/-- `VoxelExtruder.createPreview`: clears the old preview, builds preview
meshes, sets the extruding flag.  Only preview state changes. -/
def createPreview (f : FaceData) (d : ℤ) (w : XWorld) : XWorld :=
  { w with extrusionPreview := createPreviewCells f d w.vcs, isExtruding := true }

/-- `VoxelExtruder.clearPreview`. -/
def clearExtrusionPreview (w : XWorld) : XWorld :=
  { w with extrusionPreview := [], isExtruding := false }

/-- Preview-only operations of the two systems (C9). -/
inductive PreviewOp
  | volumePreview (c1 c2 : GridPos)
  | volumeClear
  | extrudePreview (f : FaceData) (d : ℤ)
  | extrudeClear

/-- Interpretation of `PreviewOp` over the combined state. -/
def applyPreviewOp (s : GBS × XWorld) : PreviewOp → GBS × XWorld
  | .volumePreview c1 c2 => (updateVolumePreview c1 c2 s.1, s.2)
  | .volumeClear => (clearPreview s.1, s.2)
  | .extrudePreview f d => (s.1, createPreview f d s.2)
  | .extrudeClear => (s.1, clearExtrusionPreview s.2)

/-! ### Commands and the UndoManager (src/state/UndoManager.js)

`Cmd.base` is the abstract `Command` base class, whose `execute()` and
`undo()` both throw; `Cmd.extrudeCmd` is `ExtrudeCommand` with its captured
`createdVoxels`.  Stacks are lists with the top at the END (JS push/pop),
so `shift()` is `tail`. -/

inductive Cmd
  | base
  | extrudeCmd (vs : List Voxel)
  deriving DecidableEq, Repr

/-- `scene.add` of three.js: re-parents (removes any previous occurrence) and
appends. -/
def sceneAdd (l : List Voxel) (v : Voxel) : List Voxel := (l.erase v) ++ [v]

/-- One step of `ExtrudeCommand.execute`: `scene.add(voxel)` then
`registerVoxel(voxel, voxel.userData.gridPosition)`. -/
def extCmdStep (w : XWorld) (v : Voxel) : XWorld :=
  { w with scene := sceneAdd w.scene v, vcs := registerVoxel w.vcs v v.pos }

/-- `ExtrudeCommand.execute` (unnamed source, ExtrudeCommand lines 27-37). -/
def extCmdApply (vs : List Voxel) (w : XWorld) : XWorld := vs.foldl extCmdStep w

/-- One step of `ExtrudeCommand.undo`: `scene.remove(voxel)` then
`unregisterVoxel(voxel.userData.gridPosition)`. -/
def extCmdRevertStep (w : XWorld) (v : Voxel) : XWorld :=
  { w with scene := w.scene.erase v, vcs := unregisterVoxel w.vcs v.pos }

/-- `ExtrudeCommand.undo` (unnamed source, ExtrudeCommand lines 39-48). -/
def extCmdRevert (vs : List Voxel) (w : XWorld) : XWorld := vs.foldl extCmdRevertStep w

/-- `command.execute()`: the base class throws; ExtrudeCommand applies its
voxels. -/
def cmdExecute : Cmd → XWorld → Except String XWorld
  | .base, _ => .error "Command.execute() must be implemented"
  | .extrudeCmd vs, w => .ok (extCmdApply vs w)

/-- `command.undo()`. -/
def cmdUndo : Cmd → XWorld → Except String XWorld
  | .base, _ => .error "Command.undo() must be implemented"
  | .extrudeCmd vs, w => .ok (extCmdRevert vs w)

/-- `UndoManager` state. -/
structure UndoMgr where
  undoStack : List Cmd
  redoStack : List Cmd
  maxHistorySize : Nat
  isUndoing : Bool
  isRedoing : Bool
  deriving DecidableEq, Repr

/-- Constructor state: empty stacks, maxHistorySize 50, flags clear. -/
def UndoMgr.init : UndoMgr := ⟨[], [], 50, false, false⟩

/-- `UndoManager.execute`: dropped silently while undoing/redoing; on a throw
from `command.execute()` the exception propagates and nothing is recorded; on
success push to the undo stack, clear the redo stack, and shift the oldest
entry out if the stack exceeds `maxHistorySize`. -/
def umExecute (cmd : Cmd) (m : UndoMgr) (w : XWorld) :
    Option String × UndoMgr × XWorld :=
  if m.isUndoing || m.isRedoing then (none, m, w)
  else
    match cmdExecute cmd w with
    | .error e => (some e, m, w)
    | .ok w' =>
      let us := m.undoStack ++ [cmd]
      (none,
        { m with undoStack := if m.maxHistorySize < us.length then us.tail else us,
                 redoStack := [] }, w')

/-- `UndoManager.undo`: no-op when empty; otherwise pops the top command
(before calling into it), runs `command.undo()`, and pushes it onto the redo
stack only on success; the `finally` clears `isUndoing` on both paths. -/
def umUndo (m : UndoMgr) (w : XWorld) : Option String × UndoMgr × XWorld :=
  match m.undoStack.getLast? with
  | none => (none, m, w)
  | some cmd =>
    match cmdUndo cmd w with
    | .ok w' =>
        (none, { m with undoStack := m.undoStack.dropLast,
                        redoStack := m.redoStack ++ [cmd],
                        isUndoing := false }, w')
    | .error e =>
        (some e, { m with undoStack := m.undoStack.dropLast,
                          isUndoing := false }, w)

/-- `UndoManager.redo`: symmetric to `undo`, re-running `command.execute()`. -/
def umRedo (m : UndoMgr) (w : XWorld) : Option String × UndoMgr × XWorld :=
  match m.redoStack.getLast? with
  | none => (none, m, w)
  | some cmd =>
    match cmdExecute cmd w with
    | .ok w' =>
        (none, { m with redoStack := m.redoStack.dropLast,
                        undoStack := m.undoStack ++ [cmd],
                        isRedoing := false }, w')
    | .error e =>
        (some e, { m with redoStack := m.redoStack.dropLast,
                          isRedoing := false }, w)

/-- `UndoManager.setMaxHistorySize`: clamp to at least 1, then shift oldest
entries until the undo stack fits. -/
def setMaxHistorySize (n : Nat) (m : UndoMgr) : UndoMgr :=
  { m with maxHistorySize := max 1 n,
           undoStack := m.undoStack.drop (m.undoStack.length - max 1 n) }

/-- Public history operations (C5). -/
inductive HistOp
  | exec (c : Cmd)
  | undoOp
  | redoOp

/-- Interpretation of `HistOp`, discarding the returned error/value. -/
def applyHistOp (s : UndoMgr × XWorld) : HistOp → UndoMgr × XWorld
  | .exec c => ((umExecute c s.1 s.2).2.1, (umExecute c s.1 s.2).2.2)
  | .undoOp => ((umUndo s.1 s.2).2.1, (umUndo s.1 s.2).2.2)
  | .redoOp => ((umRedo s.1 s.2).2.1, (umRedo s.1 s.2).2.2)

/-- Fold of `HistOp`s. -/
def applyHistOps (ops : List HistOp) (s : UndoMgr × XWorld) : UndoMgr × XWorld :=
  ops.foldl applyHistOp s

/-- Fold of plain executes. -/
def execAll (cs : List Cmd) (s : UndoMgr × XWorld) : UndoMgr × XWorld :=
  cs.foldl (fun s c => applyHistOp s (.exec c)) s

/-- The last `n` elements of a list (what remains of a stack bounded at `n`
with oldest-first eviction). -/
def lastN (n : ℕ) (l : List Cmd) : List Cmd := l.drop (l.length - n)

/-- Reentrancy-and-size invariant of a reachable `UndoManager` state. -/
def HistInv (m : UndoMgr) : Prop :=
  m.undoStack.length + m.redoStack.length ≤ m.maxHistorySize ∧
  1 ≤ m.maxHistorySize ∧ m.isUndoing = false ∧ m.isRedoing = false

/-- Scenario for the history bound: three executes, two undos, shrink the
bound to 1, then one redo. -/
def shrinkRedoScenario : UndoMgr × XWorld :=
  ((umRedo (setMaxHistorySize 1 (applyHistOps
        [HistOp.exec (Cmd.extrudeCmd []), HistOp.exec (Cmd.extrudeCmd []),
          HistOp.exec (Cmd.extrudeCmd []), HistOp.undoOp, HistOp.undoOp]
        (UndoMgr.init, XWorld.init)).1)
      (applyHistOps
        [HistOp.exec (Cmd.extrudeCmd []), HistOp.exec (Cmd.extrudeCmd []),
          HistOp.exec (Cmd.extrudeCmd []), HistOp.undoOp, HistOp.undoOp]
        (UndoMgr.init, XWorld.init)).2).2.1,
    (umRedo (setMaxHistorySize 1 (applyHistOps
        [HistOp.exec (Cmd.extrudeCmd []), HistOp.exec (Cmd.extrudeCmd []),
          HistOp.exec (Cmd.extrudeCmd []), HistOp.undoOp, HistOp.undoOp]
        (UndoMgr.init, XWorld.init)).1)
      (applyHistOps
        [HistOp.exec (Cmd.extrudeCmd []), HistOp.exec (Cmd.extrudeCmd []),
          HistOp.exec (Cmd.extrudeCmd []), HistOp.undoOp, HistOp.undoOp]
        (UndoMgr.init, XWorld.init)).2).2.2)

/-- The 51 distinct block-creating commands of the overflow scenario. -/
def fiftyOneCmds : List Cmd :=
  (List.range 51).map (fun i => Cmd.extrudeCmd [⟨i, ⟨(i : ℤ), 0, 0⟩⟩])

/-- Extrusion scenario of the spec's example: a single blocker voxel occupies
cell (3,0,0), so an extrusion along +x from the face at the origin finds its
3rd step occupied. -/
def blockedWorld : XWorld :=
  ⟨⟨[(⟨3, 0, 0⟩, ⟨99, ⟨3, 0, 0⟩⟩)], 1000⟩, [⟨99, ⟨3, 0, 0⟩⟩], [], false, 0⟩

/-- Undo/redo scenario: an `ExtrudeCommand` whose single voxel (id 2) targets
a cell already registered to a different voxel (id 1). -/
def c3Cmd : Cmd := Cmd.extrudeCmd [⟨2, ⟨0, 0, 0⟩⟩]

/-- The world for the undo/redo scenario: voxel 1 occupies cell (0,0,0) and
is registered there. -/
def c3World : XWorld :=
  ⟨⟨[(⟨0, 0, 0⟩, ⟨1, ⟨0, 0, 0⟩⟩)], 1000⟩, [⟨1, ⟨0, 0, 0⟩⟩], [], false, 5⟩

end VoxelEditor

namespace VoxelEditor

theorem jsRound_eq_round (q : ℚ) : jsRound q = round q := (round_eq q).symm

/-- Ties of the nearest-integer rounding go up: if an integer `m` is as close
to `t` as `round t` is, then `m ≤ round t`. -/
theorem round_tie_le (t : ℚ) (m : ℤ) (h : |t - (round t : ℚ)| = |t - (m : ℚ)|) :
    (m : ℚ) ≤ (round t : ℚ) := by
  by_contra hc
  push_neg at hc
  have hm : (round t : ℚ) + 1 ≤ (m : ℚ) := by
    have : round t + 1 ≤ m := by exact_mod_cast hc
    exact_mod_cast this
  have h1 : t - 1/2 < (round t : ℚ) := sub_half_lt_round t
  have h2 : |t - (m : ℚ)| ≥ (m : ℚ) - t := by
    rw [abs_sub_comm]
    exact le_abs_self _
  have h3 : (m : ℚ) - t > 1/2 := by linarith
  have h4 : |t - (round t : ℚ)| ≤ 1/2 := abs_sub_round t
  linarith [h2, h3, h4, h.le, h.ge]

/-- snapAxis returns a nearest multiple of `voxelSize`, ties resolved toward
the larger multiple (toward positive infinity), because `Math.round` rounds
halves up. -/
theorem snapAxis_spec (vs q : ℚ) (hvs : 0 < vs) (m : ℤ) :
    |q - snapAxis vs q| ≤ |q - (m : ℚ) * vs| ∧
      (|q - snapAxis vs q| = |q - (m : ℚ) * vs| → (m : ℚ) * vs ≤ snapAxis vs q) := by
  have hvs' : vs ≠ 0 := ne_of_gt hvs
  have hq : q = q / vs * vs := (div_mul_cancel₀ q hvs').symm
  have hsnap : snapAxis vs q = (round (q / vs) : ℚ) * vs := by
    unfold snapAxis
    rw [jsRound_eq_round]
  set t := q / vs with ht
  have key : ∀ k : ℤ, |q - (k : ℚ) * vs| = |t - (k : ℚ)| * vs := by
    intro k
    calc |q - (k : ℚ) * vs| = |(t - (k : ℚ)) * vs| := by rw [sub_mul, ← hq]
    _ = |t - (k : ℚ)| * |vs| := abs_mul _ _
    _ = |t - (k : ℚ)| * vs := by rw [abs_of_pos hvs]
  constructor
  · rw [hsnap, key, key]
    exact mul_le_mul_of_nonneg_right (round_le t m) hvs.le
  · intro heq
    rw [hsnap, key, key] at heq
    have habs : |t - (round t : ℚ)| = |t - (m : ℚ)| :=
      mul_right_cancel₀ hvs' heq
    have := round_tie_le t m habs
    rw [hsnap]
    exact mul_le_mul_of_nonneg_right this hvs.le

/-- C6 — corrected.  snapToGrid returns, on each axis independently, the
multiple of `voxelSize` nearest to that axis value; but an exact half is
rounded toward positive infinity (JavaScript `Math.round`), not away from
zero.  A negative exact half therefore snaps to the multiple of SMALLER
absolute value. -/
theorem C6_snapToGrid_nearest_halfUp (vs : ℚ) (hvs : 0 < vs) (p : Vec3) :
    ∀ m : ℤ,
      (|p.x - (snapToGrid vs p).x| ≤ |p.x - (m : ℚ) * vs| ∧
        (|p.x - (snapToGrid vs p).x| = |p.x - (m : ℚ) * vs| →
          (m : ℚ) * vs ≤ (snapToGrid vs p).x)) ∧
      (|p.y - (snapToGrid vs p).y| ≤ |p.y - (m : ℚ) * vs| ∧
        (|p.y - (snapToGrid vs p).y| = |p.y - (m : ℚ) * vs| →
          (m : ℚ) * vs ≤ (snapToGrid vs p).y)) ∧
      (|p.z - (snapToGrid vs p).z| ≤ |p.z - (m : ℚ) * vs| ∧
        (|p.z - (snapToGrid vs p).z| = |p.z - (m : ℚ) * vs| →
          (m : ℚ) * vs ≤ (snapToGrid vs p).z)) := by
  intro m
  exact ⟨snapAxis_spec vs p.x hvs m, snapAxis_spec vs p.y hvs m, snapAxis_spec vs p.z hvs m⟩

/-- Witness for `C6_snapToGrid_nearest_halfUp` at voxelSize 3, p = (1,1,1), m = 2. -/
theorem C6_snapToGrid_nearest_halfUp_witness :
    (|(1 : ℚ) - (snapToGrid 3 ⟨1, 1, 1⟩).x| ≤ |(1 : ℚ) - (2 : ℤ) * 3| ∧
      (|(1 : ℚ) - (snapToGrid 3 ⟨1, 1, 1⟩).x| = |(1 : ℚ) - (2 : ℤ) * 3| →
        ((2 : ℤ) : ℚ) * 3 ≤ (snapToGrid 3 ⟨1, 1, 1⟩).x)) ∧
    (|(1 : ℚ) - (snapToGrid 3 ⟨1, 1, 1⟩).y| ≤ |(1 : ℚ) - (2 : ℤ) * 3| ∧
      (|(1 : ℚ) - (snapToGrid 3 ⟨1, 1, 1⟩).y| = |(1 : ℚ) - (2 : ℤ) * 3| →
        ((2 : ℤ) : ℚ) * 3 ≤ (snapToGrid 3 ⟨1, 1, 1⟩).y)) ∧
    (|(1 : ℚ) - (snapToGrid 3 ⟨1, 1, 1⟩).z| ≤ |(1 : ℚ) - (2 : ℤ) * 3| ∧
      (|(1 : ℚ) - (snapToGrid 3 ⟨1, 1, 1⟩).z| = |(1 : ℚ) - (2 : ℤ) * 3| →
        ((2 : ℤ) : ℚ) * 3 ≤ (snapToGrid 3 ⟨1, 1, 1⟩).z)) :=
  C6_snapToGrid_nearest_halfUp 3 (by norm_num) ⟨1, 1, 1⟩ 2

/-- C6 — counterexample to the claim as stated.  At world x = -3/2 with
voxelSize 3 the code returns 0 (half rounded up), while round-half-away-from-
zero (the spec's rounding mode) gives -3. -/
theorem C6_counterexample :
    (snapToGrid defaultVoxelSize ⟨-(3/2), 0, 0⟩).x = 0 ∧
    specSnapAxis defaultVoxelSize (-(3/2)) = -3 ∧
    (snapToGrid defaultVoxelSize ⟨-(3/2), 0, 0⟩).x ≠
      specSnapAxis defaultVoxelSize (-(3/2)) := by
  refine ⟨?_, ?_, ?_⟩
  · show snapAxis 3 (-(3/2)) = 0
    unfold snapAxis jsRound
    norm_num
  · unfold specSnapAxis roundHalfAwayFromZero defaultVoxelSize
    norm_num
  · show snapAxis 3 (-(3/2)) ≠ specSnapAxis 3 (-(3/2))
    unfold snapAxis specSnapAxis jsRound roundHalfAwayFromZero
    norm_num

end VoxelEditor

namespace VoxelEditor

theorem sign_abs_eq (a b : ℤ) : a + (if a < b then (1 : ℤ) else -1) * |b - a| = b := by
  rcases lt_trichotomy a b with h | h | h
  · rw [if_pos h, one_mul, abs_of_pos (by linarith : (0 : ℤ) < b - a)]
    ring
  · rw [h, if_neg (lt_irrefl b), sub_self, abs_zero, mul_zero, add_zero]
  · rw [if_neg (not_lt.mpr h.le), abs_of_neg (by linarith : b - a < 0)]
    ring

theorem secVal_zero (dd dk sk a0 : ℤ) : secVal dd dk sk a0 0 = a0 := rfl

/-- The loop produces, at index `i`, the drive coordinate stepped `i` times
and each secondary coordinate driven by its own error recurrence. -/
theorem bresLoop_eq_map (dd d1 d2 su s1 s2 : ℤ) :
    ∀ (n : Nat) (u v w e1 e2 : ℤ),
      bresLoop dd d1 d2 su s1 s2 n u v w e1 e2 =
        (List.range n).map (fun (i : ℕ) =>
          (u + su * (i : ℤ), ((secIter dd d1 s1)^[i] (v, e1)).1,
            ((secIter dd d2 s2)^[i] (w, e2)).1)) := by
  intro n
  induction n with
  | zero => intro u v w e1 e2; rfl
  | succ n ih =>
      intro u v w e1 e2
      rw [List.range_succ_eq_map, List.map_cons, List.map_map]
      show (u, v, w) :: bresLoop dd d1 d2 su s1 s2 n (u + su) (secApply s1 v e1)
          (secApply s2 w e2) (errStep dd d1 e1) (errStep dd d2 e2) = _
      rw [ih]
      congr 1
      · simp
      · congr 1
        funext i
        simp only [Function.comp_apply, Function.iterate_succ_apply]
        show (u + su + su * (i : ℤ),
            ((secIter dd d1 s1)^[i] (secApply s1 v e1, errStep dd d1 e1)).1,
            ((secIter dd d2 s2)^[i] (secApply s2 w e2, errStep dd d2 e2)).1) = _
        have hcast : ((i + 1 : ℕ) : ℤ) = (i : ℤ) + 1 := by push_cast; ring
        rw [show (secApply s1 v e1, errStep dd d1 e1) = secIter dd d1 s1 (v, e1) from rfl,
          show (secApply s2 w e2, errStep dd d2 e2) = secIter dd d2 s2 (w, e2) from rfl,
          hcast]
        congr 1
        ring

/-- Loop invariant of one secondary axis: after `i` iterations it has taken
`j` steps, where `j` is within a half-step of the ideal slope `i*dk/dd`. -/
theorem secIter_invariant (dd dk sk a0 : ℤ) (hdd : 0 < dd) (hk0 : 0 ≤ dk) (hk1 : dk ≤ dd) :
    ∀ i : Nat, ∃ j : ℤ, 0 ≤ j ∧
      (secIter dd dk sk)^[i] (a0, 2 * dk - dd) =
        (a0 + sk * j, 2 * ((i : ℤ) + 1) * dk - (2 * j + 1) * dd) ∧
      (2 * j - 1) * dd < 2 * (i : ℤ) * dk ∧ 2 * (i : ℤ) * dk ≤ (2 * j + 1) * dd := by
  intro i
  induction i with
  | zero =>
      refine ⟨0, le_refl 0, ?_, by push_cast; linarith, by push_cast; linarith⟩
      simp only [Function.iterate_zero_apply, Nat.cast_zero]
      simp only [Prod.mk.injEq]
      constructor <;> ring
  | succ i ih =>
      obtain ⟨j, hj0, hstate, hlo, hhi⟩ := ih
      rw [Function.iterate_succ_apply', hstate]
      by_cases hE : 0 < 2 * ((i : ℤ) + 1) * dk - (2 * j + 1) * dd
      · refine ⟨j + 1, by linarith, ?_, by push_cast; linarith, by push_cast; linarith⟩
        simp only [secIter, secApply, errStep, if_pos hE]
        push_cast
        simp only [Prod.mk.injEq]
        constructor <;> ring
      · refine ⟨j, hj0, ?_, by push_cast; linarith, by push_cast; linarith⟩
        simp only [secIter, secApply, errStep, if_neg hE]
        push_cast
        simp only [Prod.mk.injEq]
        exact ⟨trivial, by ring⟩

/-- After all `dd` iterations a secondary axis has advanced by exactly its
own delta `dk`: the line lands on the target coordinate. -/
theorem secVal_final (dd dk sk a0 : ℤ) (hdd : 0 < dd) (hk0 : 0 ≤ dk) (hk1 : dk ≤ dd) :
    secVal dd dk sk a0 dd.toNat = a0 + sk * dk := by
  obtain ⟨j, hj0, hstate, hlo, hhi⟩ := secIter_invariant dd dk sk a0 hdd hk0 hk1 dd.toNat
  have hcast : ((dd.toNat : ℕ) : ℤ) = dd := Int.toNat_of_nonneg hdd.le
  rw [hcast] at hlo hhi
  have hlo' : (2 * j - 1) * dd < (2 * dk) * dd := by linarith [hlo]
  have hhi' : (2 * dk) * dd ≤ (2 * j + 1) * dd := by linarith [hhi]
  have h1 : 2 * j - 1 < 2 * dk := lt_of_mul_lt_mul_right hlo' hdd.le
  have h2 : 2 * dk ≤ 2 * j + 1 := le_of_mul_le_mul_right hhi' hdd
  have hj : j = dk := by omega
  unfold secVal
  rw [hstate, hj]

theorem secVal_succ (dd dk sk a0 : ℤ) (i : Nat) :
    secVal dd dk sk a0 (i + 1) = secVal dd dk sk a0 i ∨
    secVal dd dk sk a0 (i + 1) = secVal dd dk sk a0 i + sk := by
  unfold secVal
  rw [Function.iterate_succ_apply']
  by_cases h : 0 < ((secIter dd dk sk)^[i] (a0, 2 * dk - dd)).2
  · right
    simp [secIter, secApply, if_pos h]
  · left
    simp [secIter, secApply, if_neg h]

/-- Endpoint of one secondary axis, covering both the degenerate line
(`dd = 0`, all deltas zero) and the general case. -/
theorem secVal_endpoint (dd : ℤ) (hdd : 0 ≤ dd) (a b : ℤ) (h : |b - a| ≤ dd) :
    secVal dd |b - a| (if a < b then 1 else -1) a dd.toNat = b := by
  rcases eq_or_lt_of_le hdd with h0 | h0
  · have hab : |b - a| = 0 := le_antisymm (h0 ▸ h) (abs_nonneg _)
    have hba : b = a := by
      have := abs_eq_zero.mp hab
      omega
    rw [← h0, hba]
    rfl
  · rw [secVal_final dd |b - a| _ a h0 (abs_nonneg _) h]
    exact sign_abs_eq a b

end VoxelEditor

namespace VoxelEditor

theorem stepSign_ne_zero (a b : ℤ) : (if a < b then (1 : ℤ) else -1) ≠ 0 := by
  split <;> decide

theorem stepSign_abs_le (a b : ℤ) : |if a < b then (1 : ℤ) else -1| ≤ 1 := by
  split <;> decide

theorem secVal_step_abs (dd dk sk a0 : ℤ) (hsk : |sk| ≤ 1) (i : ℕ) :
    |secVal dd dk sk a0 (i + 1) - secVal dd dk sk a0 i| ≤ 1 := by
  rcases secVal_succ dd dk sk a0 i with h | h <;> rw [h]
  · simp
  · have : secVal dd dk sk a0 i + sk - secVal dd dk sk a0 i = sk := by ring
    rw [this]
    exact hsk

theorem drive_step_abs (x0 su : ℤ) (hsu : |su| ≤ 1) (i : ℕ) :
    |(x0 + su * ((i + 1 : ℕ) : ℤ)) - (x0 + su * ((i : ℕ) : ℤ))| ≤ 1 := by
  have : (x0 + su * ((i + 1 : ℕ) : ℤ)) - (x0 + su * ((i : ℕ) : ℤ)) = su := by
    push_cast
    ring
  rw [this]
  exact hsu

theorem drive_inj (x0 su : ℤ) (hsu : su ≠ 0) {i i' : ℕ}
    (h : x0 + su * (i : ℤ) = x0 + su * (i' : ℤ)) : i = i' := by
  have h' : su * (i : ℤ) = su * (i' : ℤ) := by linarith
  have : (i : ℤ) = (i' : ℤ) := mul_left_cancel₀ hsu h'
  exact_mod_cast this

/-- Properties of any list of the shape `(range (n+1)).map g` whose generator
is injective and takes 8-connected steps. -/
theorem path_spec (n : ℕ) (g : ℕ → GridPos)
    (hinj : Function.Injective g)
    (hstep : ∀ i : ℕ, adjStep (g i) (g (i + 1))) :
    ((List.range (n + 1)).map g).length = n + 1 ∧
    ((List.range (n + 1)).map g).head? = some (g 0) ∧
    ((List.range (n + 1)).map g).getLast? = some (g n) ∧
    ((List.range (n + 1)).map g).Nodup ∧
    ((List.range (n + 1)).map g).Chain' adjStep := by
  refine ⟨by simp, ?_, ?_, (List.nodup_range _).map hinj, ?_⟩
  · rw [List.range_succ_eq_map]
    simp
  · rw [List.range_succ n, List.map_append]
    exact List.getLast?_concat _
  · rw [List.chain'_map]
    exact (List.chain'_range_succ _ n).mpr (fun m _ => hstep m)

/-- X-dominant branch of getLinePositions satisfies the line specification. -/
theorem lineSpec_branchX (s e : GridPos)
    (h1 : |e.y - s.y| ≤ |e.x - s.x|) (h2 : |e.z - s.z| ≤ |e.x - s.x|) :
    LineSpec s e (|e.x - s.x|).toNat := by
  have hdd0 : (0 : ℤ) ≤ |e.x - s.x| := abs_nonneg _
  have hcast : (((|e.x - s.x|).toNat : ℕ) : ℤ) = |e.x - s.x| := Int.toNat_of_nonneg hdd0
  have hx : s.x + (if s.x < e.x then (1 : ℤ) else -1) * (((|e.x - s.x|).toNat : ℕ) : ℤ) = e.x := by
    rw [hcast]
    exact sign_abs_eq s.x e.x
  have hy : secVal |e.x - s.x| |e.y - s.y| (if s.y < e.y then 1 else -1) s.y
      (|e.x - s.x|).toNat = e.y := secVal_endpoint _ hdd0 s.y e.y h1
  have hz : secVal |e.x - s.x| |e.z - s.z| (if s.z < e.z then 1 else -1) s.z
      (|e.x - s.x|).toNat = e.z := secVal_endpoint _ hdd0 s.z e.z h2
  have hrew : getLinePositions s e =
      (List.range ((|e.x - s.x|).toNat + 1)).map (fun (i : ℕ) =>
        GridPos.mk (s.x + (if s.x < e.x then (1 : ℤ) else -1) * (i : ℤ))
          (secVal |e.x - s.x| |e.y - s.y| (if s.y < e.y then 1 else -1) s.y i)
          (secVal |e.x - s.x| |e.z - s.z| (if s.z < e.z then 1 else -1) s.z i)) := by
    show (if |e.y - s.y| ≤ |e.x - s.x| ∧ |e.z - s.z| ≤ |e.x - s.x| then _ else _) = _
    rw [if_pos ⟨h1, h2⟩, bresLoop_eq_map, List.map_map, List.range_succ, List.map_append]
    congr 1
    rw [List.map_cons, List.map_nil]
    congr 1
    show GridPos.mk _ _ _ = GridPos.mk _ _ _
    rw [hx, hy, hz]
  have hinj : Function.Injective (fun (i : ℕ) =>
      GridPos.mk (s.x + (if s.x < e.x then (1 : ℤ) else -1) * (i : ℤ))
        (secVal |e.x - s.x| |e.y - s.y| (if s.y < e.y then 1 else -1) s.y i)
        (secVal |e.x - s.x| |e.z - s.z| (if s.z < e.z then 1 else -1) s.z i)) := by
    intro i i' hEq
    exact drive_inj s.x _ (stepSign_ne_zero s.x e.x) (congrArg GridPos.x hEq)
  have hstep : ∀ i : ℕ, adjStep
      (GridPos.mk (s.x + (if s.x < e.x then (1 : ℤ) else -1) * (i : ℤ))
        (secVal |e.x - s.x| |e.y - s.y| (if s.y < e.y then 1 else -1) s.y i)
        (secVal |e.x - s.x| |e.z - s.z| (if s.z < e.z then 1 else -1) s.z i))
      (GridPos.mk (s.x + (if s.x < e.x then (1 : ℤ) else -1) * ((i + 1 : ℕ) : ℤ))
        (secVal |e.x - s.x| |e.y - s.y| (if s.y < e.y then 1 else -1) s.y (i + 1))
        (secVal |e.x - s.x| |e.z - s.z| (if s.z < e.z then 1 else -1) s.z (i + 1))) := by
    intro i
    exact ⟨drive_step_abs s.x _ (stepSign_abs_le s.x e.x) i,
      secVal_step_abs _ _ _ _ (stepSign_abs_le s.y e.y) i,
      secVal_step_abs _ _ _ _ (stepSign_abs_le s.z e.z) i⟩
  obtain ⟨hlen, hhead, hlast, hnodup, hchain⟩ :=
    path_spec ((|e.x - s.x|).toNat) _ hinj hstep
  refine ⟨?_, ?_, ?_, ?_, ?_⟩
  · rw [hrew]; exact hlen
  · rw [hrew, hhead]
    congr 1
    show GridPos.mk _ _ _ = s
    rw [Nat.cast_zero, mul_zero, add_zero, secVal_zero, secVal_zero]
  · rw [hrew, hlast]
    congr 1
    show GridPos.mk _ _ _ = e
    rw [hx, hy, hz]
  · rw [hrew]; exact hnodup
  · rw [hrew]; exact hchain

end VoxelEditor

namespace VoxelEditor

/-- Y-dominant branch of getLinePositions satisfies the line specification. -/
theorem lineSpec_branchY (s e : GridPos)
    (hno1 : ¬(|e.y - s.y| ≤ |e.x - s.x| ∧ |e.z - s.z| ≤ |e.x - s.x|))
    (h1 : |e.x - s.x| ≤ |e.y - s.y|) (h2 : |e.z - s.z| ≤ |e.y - s.y|) :
    LineSpec s e (|e.y - s.y|).toNat := by
  have hdd0 : (0 : ℤ) ≤ |e.y - s.y| := abs_nonneg _
  have hcast : (((|e.y - s.y|).toNat : ℕ) : ℤ) = |e.y - s.y| := Int.toNat_of_nonneg hdd0
  have hy : s.y + (if s.y < e.y then (1 : ℤ) else -1) * (((|e.y - s.y|).toNat : ℕ) : ℤ) = e.y := by
    rw [hcast]
    exact sign_abs_eq s.y e.y
  have hx : secVal |e.y - s.y| |e.x - s.x| (if s.x < e.x then 1 else -1) s.x
      (|e.y - s.y|).toNat = e.x := secVal_endpoint _ hdd0 s.x e.x h1
  have hz : secVal |e.y - s.y| |e.z - s.z| (if s.z < e.z then 1 else -1) s.z
      (|e.y - s.y|).toNat = e.z := secVal_endpoint _ hdd0 s.z e.z h2
  have hrew : getLinePositions s e =
      (List.range ((|e.y - s.y|).toNat + 1)).map (fun (i : ℕ) =>
        GridPos.mk (secVal |e.y - s.y| |e.x - s.x| (if s.x < e.x then 1 else -1) s.x i)
          (s.y + (if s.y < e.y then (1 : ℤ) else -1) * (i : ℤ))
          (secVal |e.y - s.y| |e.z - s.z| (if s.z < e.z then 1 else -1) s.z i)) := by
    show (if |e.y - s.y| ≤ |e.x - s.x| ∧ |e.z - s.z| ≤ |e.x - s.x| then _
      else if |e.x - s.x| ≤ |e.y - s.y| ∧ |e.z - s.z| ≤ |e.y - s.y| then _ else _) = _
    rw [if_neg hno1, if_pos ⟨h1, h2⟩, bresLoop_eq_map, List.map_map, List.range_succ,
      List.map_append]
    congr 1
    rw [List.map_cons, List.map_nil]
    congr 1
    show GridPos.mk _ _ _ = GridPos.mk _ _ _
    rw [hx, hy, hz]
  have hinj : Function.Injective (fun (i : ℕ) =>
      GridPos.mk (secVal |e.y - s.y| |e.x - s.x| (if s.x < e.x then 1 else -1) s.x i)
        (s.y + (if s.y < e.y then (1 : ℤ) else -1) * (i : ℤ))
        (secVal |e.y - s.y| |e.z - s.z| (if s.z < e.z then 1 else -1) s.z i)) := by
    intro i i' hEq
    exact drive_inj s.y _ (stepSign_ne_zero s.y e.y) (congrArg GridPos.y hEq)
  have hstep : ∀ i : ℕ, adjStep
      (GridPos.mk (secVal |e.y - s.y| |e.x - s.x| (if s.x < e.x then 1 else -1) s.x i)
        (s.y + (if s.y < e.y then (1 : ℤ) else -1) * (i : ℤ))
        (secVal |e.y - s.y| |e.z - s.z| (if s.z < e.z then 1 else -1) s.z i))
      (GridPos.mk (secVal |e.y - s.y| |e.x - s.x| (if s.x < e.x then 1 else -1) s.x (i + 1))
        (s.y + (if s.y < e.y then (1 : ℤ) else -1) * ((i + 1 : ℕ) : ℤ))
        (secVal |e.y - s.y| |e.z - s.z| (if s.z < e.z then 1 else -1) s.z (i + 1))) := by
    intro i
    exact ⟨secVal_step_abs _ _ _ _ (stepSign_abs_le s.x e.x) i,
      drive_step_abs s.y _ (stepSign_abs_le s.y e.y) i,
      secVal_step_abs _ _ _ _ (stepSign_abs_le s.z e.z) i⟩
  obtain ⟨hlen, hhead, hlast, hnodup, hchain⟩ :=
    path_spec ((|e.y - s.y|).toNat) _ hinj hstep
  refine ⟨?_, ?_, ?_, ?_, ?_⟩
  · rw [hrew]; exact hlen
  · rw [hrew, hhead]
    congr 1
    show GridPos.mk _ _ _ = s
    rw [Nat.cast_zero, mul_zero, add_zero, secVal_zero, secVal_zero]
  · rw [hrew, hlast]
    congr 1
    show GridPos.mk _ _ _ = e
    rw [hx, hy, hz]
  · rw [hrew]; exact hnodup
  · rw [hrew]; exact hchain

/-- Z-dominant branch of getLinePositions satisfies the line specification. -/
theorem lineSpec_branchZ (s e : GridPos)
    (hno1 : ¬(|e.y - s.y| ≤ |e.x - s.x| ∧ |e.z - s.z| ≤ |e.x - s.x|))
    (hno2 : ¬(|e.x - s.x| ≤ |e.y - s.y| ∧ |e.z - s.z| ≤ |e.y - s.y|))
    (h1 : |e.y - s.y| ≤ |e.z - s.z|) (h2 : |e.x - s.x| ≤ |e.z - s.z|) :
    LineSpec s e (|e.z - s.z|).toNat := by
  have hdd0 : (0 : ℤ) ≤ |e.z - s.z| := abs_nonneg _
  have hcast : (((|e.z - s.z|).toNat : ℕ) : ℤ) = |e.z - s.z| := Int.toNat_of_nonneg hdd0
  have hz : s.z + (if s.z < e.z then (1 : ℤ) else -1) * (((|e.z - s.z|).toNat : ℕ) : ℤ) = e.z := by
    rw [hcast]
    exact sign_abs_eq s.z e.z
  have hy : secVal |e.z - s.z| |e.y - s.y| (if s.y < e.y then 1 else -1) s.y
      (|e.z - s.z|).toNat = e.y := secVal_endpoint _ hdd0 s.y e.y h1
  have hx : secVal |e.z - s.z| |e.x - s.x| (if s.x < e.x then 1 else -1) s.x
      (|e.z - s.z|).toNat = e.x := secVal_endpoint _ hdd0 s.x e.x h2
  have hrew : getLinePositions s e =
      (List.range ((|e.z - s.z|).toNat + 1)).map (fun (i : ℕ) =>
        GridPos.mk (secVal |e.z - s.z| |e.x - s.x| (if s.x < e.x then 1 else -1) s.x i)
          (secVal |e.z - s.z| |e.y - s.y| (if s.y < e.y then 1 else -1) s.y i)
          (s.z + (if s.z < e.z then (1 : ℤ) else -1) * (i : ℤ))) := by
    show (if |e.y - s.y| ≤ |e.x - s.x| ∧ |e.z - s.z| ≤ |e.x - s.x| then _
      else if |e.x - s.x| ≤ |e.y - s.y| ∧ |e.z - s.z| ≤ |e.y - s.y| then _ else _) = _
    rw [if_neg hno1, if_neg hno2, bresLoop_eq_map, List.map_map, List.range_succ,
      List.map_append]
    congr 1
    rw [List.map_cons, List.map_nil]
    congr 1
    show GridPos.mk _ _ _ = GridPos.mk _ _ _
    rw [hx, hy, hz]
  have hinj : Function.Injective (fun (i : ℕ) =>
      GridPos.mk (secVal |e.z - s.z| |e.x - s.x| (if s.x < e.x then 1 else -1) s.x i)
        (secVal |e.z - s.z| |e.y - s.y| (if s.y < e.y then 1 else -1) s.y i)
        (s.z + (if s.z < e.z then (1 : ℤ) else -1) * (i : ℤ))) := by
    intro i i' hEq
    exact drive_inj s.z _ (stepSign_ne_zero s.z e.z) (congrArg GridPos.z hEq)
  have hstep : ∀ i : ℕ, adjStep
      (GridPos.mk (secVal |e.z - s.z| |e.x - s.x| (if s.x < e.x then 1 else -1) s.x i)
        (secVal |e.z - s.z| |e.y - s.y| (if s.y < e.y then 1 else -1) s.y i)
        (s.z + (if s.z < e.z then (1 : ℤ) else -1) * (i : ℤ)))
      (GridPos.mk (secVal |e.z - s.z| |e.x - s.x| (if s.x < e.x then 1 else -1) s.x (i + 1))
        (secVal |e.z - s.z| |e.y - s.y| (if s.y < e.y then 1 else -1) s.y (i + 1))
        (s.z + (if s.z < e.z then (1 : ℤ) else -1) * ((i + 1 : ℕ) : ℤ))) := by
    intro i
    exact ⟨secVal_step_abs _ _ _ _ (stepSign_abs_le s.x e.x) i,
      secVal_step_abs _ _ _ _ (stepSign_abs_le s.y e.y) i,
      drive_step_abs s.z _ (stepSign_abs_le s.z e.z) i⟩
  obtain ⟨hlen, hhead, hlast, hnodup, hchain⟩ :=
    path_spec ((|e.z - s.z|).toNat) _ hinj hstep
  refine ⟨?_, ?_, ?_, ?_, ?_⟩
  · rw [hrew]; exact hlen
  · rw [hrew, hhead]
    congr 1
    show GridPos.mk _ _ _ = s
    rw [Nat.cast_zero, mul_zero, add_zero, secVal_zero, secVal_zero]
  · rw [hrew, hlast]
    congr 1
    show GridPos.mk _ _ _ = e
    rw [hx, hy, hz]
  · rw [hrew]; exact hnodup
  · rw [hrew]; exact hchain

end VoxelEditor

namespace VoxelEditor

/-- C7: getLinePositions returns an ordered sequence of exactly
max(|dx|,|dy|,|dz|)+1 grid cells with no duplicates, beginning at start and
ending at end, consecutive cells differing by at most 1 on every axis
(8-connectivity, no gaps); and linePositions((0,0,0),(3,0,0)) is exactly
[(0,0,0),(1,0,0),(2,0,0),(3,0,0)]. -/
theorem C7_getLinePositions_spec (s e : GridPos) :
    ((getLinePositions s e).length =
        (max |e.x - s.x| (max |e.y - s.y| |e.z - s.z|)).toNat + 1 ∧
      (getLinePositions s e).head? = some s ∧
      (getLinePositions s e).getLast? = some e ∧
      (getLinePositions s e).Nodup ∧
      (getLinePositions s e).Chain' adjStep) ∧
    getLinePositions ⟨0, 0, 0⟩ ⟨3, 0, 0⟩ =
      [⟨0, 0, 0⟩, ⟨1, 0, 0⟩, ⟨2, 0, 0⟩, ⟨3, 0, 0⟩] := by
  constructor
  · by_cases hX : |e.y - s.y| ≤ |e.x - s.x| ∧ |e.z - s.z| ≤ |e.x - s.x|
    · have hmax : max |e.x - s.x| (max |e.y - s.y| |e.z - s.z|) = |e.x - s.x| :=
        max_eq_left (max_le hX.1 hX.2)
      rw [hmax]
      exact lineSpec_branchX s e hX.1 hX.2
    · by_cases hY : |e.x - s.x| ≤ |e.y - s.y| ∧ |e.z - s.z| ≤ |e.y - s.y|
      · have hmax : max |e.x - s.x| (max |e.y - s.y| |e.z - s.z|) = |e.y - s.y| := by
          rw [max_eq_left hY.2, max_eq_right hY.1]
        rw [hmax]
        exact lineSpec_branchY s e hX hY.1 hY.2
      · have h1 : |e.y - s.y| ≤ |e.z - s.z| := by
          by_contra hc
          push_neg at hc
          rcases le_total |e.x - s.x| |e.y - s.y| with hxy | hxy
          · exact hY ⟨hxy, hc.le⟩
          · exact hX ⟨hxy, hc.le.trans hxy⟩
        have h2 : |e.x - s.x| ≤ |e.z - s.z| := by
          by_contra hc
          push_neg at hc
          rcases le_total |e.x - s.x| |e.y - s.y| with hxy | hxy
          · exact hY ⟨hxy, hc.le.trans hxy⟩
          · exact hX ⟨hxy, hc.le⟩
        have hmax : max |e.x - s.x| (max |e.y - s.y| |e.z - s.z|) = |e.z - s.z| := by
          rw [max_eq_right h1, max_eq_right h2]
        rw [hmax]
        exact lineSpec_branchZ s e hX hY h1 h2
  · decide

end VoxelEditor

namespace VoxelEditor

theorem mapGet_set_self (m : List (GridPos × Voxel)) (k : GridPos) (v : Voxel) :
    mapGet (mapSet m k v) k = some v := by
  induction m with
  | nil => simp [mapSet, mapGet]
  | cons kv rest ih =>
      by_cases h : kv.1 = k
      · simp [mapSet, mapGet, h]
      · simp [mapSet, mapGet, h, ih]

theorem mapGet_set_ne (m : List (GridPos × Voxel)) (k k' : GridPos) (v : Voxel)
    (h : k' ≠ k) : mapGet (mapSet m k v) k' = mapGet m k' := by
  induction m with
  | nil => simp [mapSet, mapGet, (Ne.symm h)]
  | cons kv rest ih =>
      by_cases hk : kv.1 = k
      · subst hk
        simp [mapSet, mapGet, (Ne.symm h)]
      · by_cases hk' : kv.1 = k'
        · simp [mapSet, mapGet, hk, hk', h]
        · simp [mapSet, mapGet, hk, hk', ih]

theorem mapSet_append (m : List (GridPos × Voxel)) (k : GridPos) (v : Voxel)
    (h : mapGet m k = none) : mapSet m k v = m ++ [(k, v)] := by
  induction m with
  | nil => simp [mapSet]
  | cons kv rest ih =>
      by_cases hk : kv.1 = k
      · simp [mapGet, hk] at h
      · simp only [mapGet, hk, if_neg] at h
        simp [mapSet, hk, ih h]

theorem mapSet_length (m : List (GridPos × Voxel)) (k : GridPos) (v : Voxel)
    (h : mapGet m k = none) : (mapSet m k v).length = m.length + 1 := by
  rw [mapSet_append m k v h]
  simp

theorem mapDelete_sublist (m : List (GridPos × Voxel)) (k : GridPos) :
    (mapDelete m k).Sublist m := by
  induction m with
  | nil => simp [mapDelete]
  | cons kv rest ih =>
      by_cases hk : kv.1 = k
      · simp only [mapDelete, hk, if_pos]
        exact (List.sublist_cons_self kv rest)
      · simp only [mapDelete, hk, if_neg, not_false_iff]
        exact ih.cons₂ kv

theorem mapGet_delete_ne (m : List (GridPos × Voxel)) (k k' : GridPos)
    (h : k' ≠ k) : mapGet (mapDelete m k) k' = mapGet m k' := by
  induction m with
  | nil => simp [mapDelete]
  | cons kv rest ih =>
      by_cases hk : kv.1 = k
      · subst hk
        simp [mapDelete, mapGet, (Ne.symm h)]
      · by_cases hk' : kv.1 = k'
        · simp [mapDelete, mapGet, hk, hk', h]
        · simp [mapDelete, mapGet, hk, hk', ih]

theorem mapGet_eq_none_iff (m : List (GridPos × Voxel)) (k : GridPos) :
    mapGet m k = none ↔ k ∉ m.map Prod.fst := by
  induction m with
  | nil => simp [mapGet]
  | cons kv rest ih =>
      by_cases hk : kv.1 = k
      · simp [mapGet, hk]
      · simp [mapGet, hk, ih, Ne.symm hk]

theorem mapGet_delete_self (m : List (GridPos × Voxel)) (k : GridPos)
    (h : (m.map Prod.fst).Nodup) : mapGet (mapDelete m k) k = none := by
  induction m with
  | nil => simp [mapDelete, mapGet]
  | cons kv rest ih =>
      simp only [List.map_cons, List.nodup_cons] at h
      by_cases hk : kv.1 = k
      · simp only [mapDelete, hk, if_pos]
        rw [mapGet_eq_none_iff]
        rw [← hk]
        exact h.1
      · simp [mapDelete, mapGet, hk, ih h.2]

theorem mem_keys_mapSet (m : List (GridPos × Voxel)) (k : GridPos) (v : Voxel)
    (a : GridPos) :
    a ∈ (mapSet m k v).map Prod.fst ↔ a = k ∨ a ∈ m.map Prod.fst := by
  induction m with
  | nil => simp [mapSet]
  | cons kv rest ih =>
      by_cases hk : kv.1 = k
      · have hq : mapSet (kv :: rest) k v = (k, v) :: rest := by simp [mapSet, hk]
        rw [hq]
        simp only [List.map_cons, List.mem_cons]
        constructor
        · rintro (h1 | h1) <;> tauto
        · rintro (h1 | h1 | h1)
          · left; exact h1
          · left; rw [h1, hk]
          · right; exact h1
      · have hq : mapSet (kv :: rest) k v = kv :: mapSet rest k v := by simp [mapSet, hk]
        rw [hq]
        simp only [List.map_cons, List.mem_cons, ih]
        tauto

theorem mapSet_keys_nodup (m : List (GridPos × Voxel)) (k : GridPos) (v : Voxel)
    (h : (m.map Prod.fst).Nodup) : ((mapSet m k v).map Prod.fst).Nodup := by
  induction m with
  | nil => simp [mapSet]
  | cons kv rest ih =>
      simp only [List.map_cons, List.nodup_cons] at h
      by_cases hk : kv.1 = k
      · simp only [mapSet, hk, if_pos, List.map_cons, List.nodup_cons]
        exact ⟨hk ▸ h.1, h.2⟩
      · simp only [mapSet, hk, if_neg, not_false_iff, List.map_cons, List.nodup_cons]
        refine ⟨?_, ih h.2⟩
        intro hmem
        rcases (mem_keys_mapSet rest k v kv.1).mp hmem with h1 | h1
        · exact hk h1
        · exact h.1 h1

end VoxelEditor

namespace VoxelEditor

theorem applyPreviewOp_registry (s : GBS × XWorld) (op : PreviewOp) :
    (applyPreviewOp s op).1.blocks = s.1.blocks ∧
    (applyPreviewOp s op).1.scene = s.1.scene ∧
    (applyPreviewOp s op).2.vcs = s.2.vcs ∧
    (applyPreviewOp s op).2.scene = s.2.scene := by
  cases op <;>
    simp [applyPreviewOp, updateVolumePreview, clearPreview, createPreview,
      clearExtrusionPreview]

/-- C9: previews never mutate occupancy.  For every sequence of volume-preview
updates, extrusion-preview creations and preview clears, the block map, the
solid scene, the collision registry and the extruder scene are all unchanged —
only preview meshes are added or removed — so abandoning a preview leaves no
ghost occupancy. -/
theorem C9_previews_never_mutate_registry (ops : List PreviewOp) (s : GBS × XWorld) :
    (ops.foldl applyPreviewOp s).1.blocks = s.1.blocks ∧
    (ops.foldl applyPreviewOp s).1.scene = s.1.scene ∧
    (ops.foldl applyPreviewOp s).2.vcs = s.2.vcs ∧
    (ops.foldl applyPreviewOp s).2.scene = s.2.scene := by
  induction ops generalizing s with
  | nil => exact ⟨rfl, rfl, rfl, rfl⟩
  | cons op rest ih =>
      obtain ⟨h1, h2, h3, h4⟩ := ih (applyPreviewOp s op)
      obtain ⟨g1, g2, g3, g4⟩ := applyPreviewOp_registry s op
      exact ⟨h1.trans g1, h2.trans g2, h3.trans g3, h4.trans g4⟩

/-- C4 — counterexample to the claim as stated.  A failing `undo()` does NOT
leave the stacks as they were: the failing command is popped off the undo
stack before `command.undo()` runs and is never pushed onto the redo stack,
so the command is dropped from history. -/
theorem C4_counterexample :
    (umUndo ⟨[Cmd.base], [], 50, false, false⟩ XWorld.init).1 =
        some "Command.undo() must be implemented" ∧
    (umUndo ⟨[Cmd.base], [], 50, false, false⟩ XWorld.init).2.1.undoStack = [] ∧
    ([] : List Cmd) ≠ [Cmd.base] := by
  refine ⟨rfl, rfl, by decide⟩

/-- C4 — amended.  Exceptions from `apply`/`revert` propagate synchronously.
A failing `execute()` records nothing and leaves the manager exactly as it
was (redo stack included); but a failing `undo()` (resp. `redo()`) removes
the failing command from the undo (resp. redo) stack without pushing it onto
the other stack — the command is lost from history — while the world and the
other stack are unchanged and the reentrancy flag is cleared. -/
theorem C4_failure_propagation :
    (∀ (cmd : Cmd) (m : UndoMgr) (w : XWorld) (e : String),
      m.isUndoing = false → m.isRedoing = false → cmdExecute cmd w = .error e →
      umExecute cmd m w = (some e, m, w)) ∧
    (∀ (m : UndoMgr) (w : XWorld) (us : List Cmd) (cmd : Cmd) (e : String),
      m.undoStack = us ++ [cmd] → cmdUndo cmd w = .error e →
      umUndo m w = (some e, { m with undoStack := us, isUndoing := false }, w)) ∧
    (∀ (m : UndoMgr) (w : XWorld) (rs : List Cmd) (cmd : Cmd) (e : String),
      m.redoStack = rs ++ [cmd] → cmdExecute cmd w = .error e →
      umRedo m w = (some e, { m with redoStack := rs, isRedoing := false }, w)) := by
  refine ⟨?_, ?_, ?_⟩
  · intro cmd m w e hu hr hex
    simp [umExecute, hu, hr, hex]
  · intro m w us cmd e hus hund
    simp [umUndo, hus, List.getLast?_concat, hund, List.dropLast_concat]
  · intro m w rs cmd e hrs hex
    simp [umRedo, hrs, List.getLast?_concat, hex, List.dropLast_concat]

/-- Witness for `C4_failure_propagation`: the abstract base Command, whose
`execute()` throws, propagates its error and leaves the manager untouched. -/
theorem C4_failure_propagation_witness :
    umExecute Cmd.base UndoMgr.init XWorld.init =
      (some "Command.execute() must be implemented", UndoMgr.init, XWorld.init) :=
  C4_failure_propagation.1 Cmd.base UndoMgr.init XWorld.init
    "Command.execute() must be implemented" rfl rfl rfl

/-- C10: whenever `undo()` or `redo()` returns — normally, by propagated
exception, or via the empty-stack early return — both reentrancy flags are
false (for any call made outside an undo/redo, i.e. with clear flags), so a
later `execute()` is never silently dropped by a stale flag. -/
theorem C10_reentrancy_flags_cleared (m : UndoMgr) (w : XWorld)
    (hu : m.isUndoing = false) (hr : m.isRedoing = false) :
    ((umUndo m w).2.1.isUndoing = false ∧ (umUndo m w).2.1.isRedoing = false) ∧
    ((umRedo m w).2.1.isUndoing = false ∧ (umRedo m w).2.1.isRedoing = false) := by
  constructor
  · unfold umUndo
    cases hl : m.undoStack.getLast? with
    | none => exact ⟨hu, hr⟩
    | some cmd =>
        cases hcu : cmdUndo cmd w with
        | ok w' => simp [hcu, hr]
        | error e => simp [hcu, hr]
  · unfold umRedo
    cases hl : m.redoStack.getLast? with
    | none => exact ⟨hu, hr⟩
    | some cmd =>
        cases hcu : cmdExecute cmd w with
        | ok w' => simp [hcu, hu]
        | error e => simp [hcu, hu]

/-- Witness for `C10_reentrancy_flags_cleared` at the fresh manager. -/
theorem C10_reentrancy_flags_cleared_witness :
    ((umUndo UndoMgr.init XWorld.init).2.1.isUndoing = false ∧
      (umUndo UndoMgr.init XWorld.init).2.1.isRedoing = false) ∧
    ((umRedo UndoMgr.init XWorld.init).2.1.isUndoing = false ∧
      (umRedo UndoMgr.init XWorld.init).2.1.isRedoing = false) :=
  C10_reentrancy_flags_cleared UndoMgr.init XWorld.init rfl rfl

end VoxelEditor

namespace VoxelEditor

theorem lastN_length (n : ℕ) (l : List Cmd) : (lastN n l).length = min l.length n := by
  simp only [lastN, List.length_drop]
  omega

theorem lastN_of_le (n : ℕ) (l : List Cmd) (h : l.length ≤ n) : lastN n l = l := by
  unfold lastN
  have h0 : l.length - n = 0 := by omega
  rw [h0, List.drop_zero]

/-- Pushing then shifting on overflow is exactly "keep the newest
maxHistorySize entries". -/
theorem trim_push (M : ℕ) (_hM : 1 ≤ M) (us : List Cmd) (hlen : us.length ≤ M) (c : Cmd) :
    (if M < (us ++ [c]).length then (us ++ [c]).tail else us ++ [c]) =
      lastN M (us ++ [c]) := by
  by_cases hcase : M < us.length + 1
  · have hus : us.length = M := by omega
    rw [if_pos (by simp only [List.length_append, List.length_singleton]; omega)]
    unfold lastN
    rw [List.length_append, List.length_singleton]
    have h1 : us.length + 1 - M = 1 := by omega
    rw [h1, List.drop_one]
  · rw [if_neg (by simp only [List.length_append, List.length_singleton]; omega)]
    rw [lastN_of_le M (us ++ [c])
      (by simp only [List.length_append, List.length_singleton]; omega)]

/-- Re-trimming an already-trimmed stack after appending more entries gives
the same result as trimming once at the end. -/
theorem lastN_lastN_append (M : ℕ) (L T : List Cmd) :
    lastN M (lastN M L ++ T) = lastN M (L ++ T) := by
  by_cases hL : M ≤ L.length
  · unfold lastN
    rw [List.length_append, List.length_append, List.length_drop]
    have h1 : L.length - (L.length - M) + T.length - M = T.length := by omega
    rw [h1]
    have h2 : L.length + T.length - M = (L.length - M) + T.length := by omega
    rw [h2, ← List.drop_drop]
    congr 1
    rw [List.drop_append_of_le_length (by omega)]
  · push_neg at hL
    rw [lastN_of_le M L (by omega)]

theorem histInv_execute (cmd : Cmd) (m : UndoMgr) (w : XWorld) (h : HistInv m) :
    HistInv (umExecute cmd m w).2.1 := by
  obtain ⟨hsum, hM, hu, hr⟩ := h
  unfold umExecute
  rw [hu, hr]
  cases hce : cmdExecute cmd w with
  | error e => simpa using ⟨hsum, hM, hu, hr⟩
  | ok w' =>
      simp only [Bool.or_self, Bool.false_eq_true, if_false]
      refine ⟨?_, hM, rfl, rfl⟩
      simp only [List.length_nil, Nat.add_zero]
      by_cases hc : m.maxHistorySize < (m.undoStack ++ [cmd]).length
      · rw [if_pos hc, List.length_tail, List.length_append, List.length_singleton]
        rw [List.length_append, List.length_singleton] at hc
        omega
      · rw [if_neg hc]
        rw [List.length_append, List.length_singleton] at hc
        rw [List.length_append, List.length_singleton]
        omega

theorem histInv_undo (m : UndoMgr) (w : XWorld) (h : HistInv m) :
    HistInv (umUndo m w).2.1 := by
  obtain ⟨hsum, hM, hu, hr⟩ := h
  cases hl : m.undoStack.getLast? with
  | none =>
      have hres : (umUndo m w).2.1 = m := by simp [umUndo, hl]
      rw [hres]
      exact ⟨hsum, hM, hu, hr⟩
  | some cmd =>
      have hne : m.undoStack ≠ [] := by
        intro hnil
        rw [hnil] at hl
        simp at hl
      have hpos : 0 < m.undoStack.length := List.length_pos.mpr hne
      cases hcu : cmdUndo cmd w with
      | ok w' =>
          have h1 : (umUndo m w).2.1.undoStack = m.undoStack.dropLast := by
            simp [umUndo, hl, hcu]
          have h2 : (umUndo m w).2.1.redoStack = m.redoStack ++ [cmd] := by
            simp [umUndo, hl, hcu]
          have h3 : (umUndo m w).2.1.maxHistorySize = m.maxHistorySize := by
            simp [umUndo, hl, hcu]
          have h4 : (umUndo m w).2.1.isUndoing = false := by
            simp [umUndo, hl, hcu]
          have h5 : (umUndo m w).2.1.isRedoing = false := by
            simp [umUndo, hl, hcu, hr]
          refine ⟨?_, ?_, h4, h5⟩
          · rw [h1, h2, h3, List.length_dropLast, List.length_append,
              List.length_singleton]
            omega
          · rw [h3]
            exact hM
      | error e =>
          have h1 : (umUndo m w).2.1.undoStack = m.undoStack.dropLast := by
            simp [umUndo, hl, hcu]
          have h2 : (umUndo m w).2.1.redoStack = m.redoStack := by
            simp [umUndo, hl, hcu]
          have h3 : (umUndo m w).2.1.maxHistorySize = m.maxHistorySize := by
            simp [umUndo, hl, hcu]
          have h4 : (umUndo m w).2.1.isUndoing = false := by
            simp [umUndo, hl, hcu]
          have h5 : (umUndo m w).2.1.isRedoing = false := by
            simp [umUndo, hl, hcu, hr]
          refine ⟨?_, ?_, h4, h5⟩
          · rw [h1, h2, h3, List.length_dropLast]
            omega
          · rw [h3]
            exact hM

theorem histInv_redo (m : UndoMgr) (w : XWorld) (h : HistInv m) :
    HistInv (umRedo m w).2.1 := by
  obtain ⟨hsum, hM, hu, hr⟩ := h
  cases hl : m.redoStack.getLast? with
  | none =>
      have hres : (umRedo m w).2.1 = m := by simp [umRedo, hl]
      rw [hres]
      exact ⟨hsum, hM, hu, hr⟩
  | some cmd =>
      have hne : m.redoStack ≠ [] := by
        intro hnil
        rw [hnil] at hl
        simp at hl
      have hpos : 0 < m.redoStack.length := List.length_pos.mpr hne
      cases hcu : cmdExecute cmd w with
      | ok w' =>
          have h1 : (umRedo m w).2.1.undoStack = m.undoStack ++ [cmd] := by
            simp [umRedo, hl, hcu]
          have h2 : (umRedo m w).2.1.redoStack = m.redoStack.dropLast := by
            simp [umRedo, hl, hcu]
          have h3 : (umRedo m w).2.1.maxHistorySize = m.maxHistorySize := by
            simp [umRedo, hl, hcu]
          have h4 : (umRedo m w).2.1.isUndoing = false := by
            simp [umRedo, hl, hcu, hu]
          have h5 : (umRedo m w).2.1.isRedoing = false := by
            simp [umRedo, hl, hcu]
          refine ⟨?_, ?_, h4, h5⟩
          · rw [h1, h2, h3, List.length_dropLast, List.length_append,
              List.length_singleton]
            omega
          · rw [h3]
            exact hM
      | error e =>
          have h1 : (umRedo m w).2.1.undoStack = m.undoStack := by
            simp [umRedo, hl, hcu]
          have h2 : (umRedo m w).2.1.redoStack = m.redoStack.dropLast := by
            simp [umRedo, hl, hcu]
          have h3 : (umRedo m w).2.1.maxHistorySize = m.maxHistorySize := by
            simp [umRedo, hl, hcu]
          have h4 : (umRedo m w).2.1.isUndoing = false := by
            simp [umRedo, hl, hcu, hu]
          have h5 : (umRedo m w).2.1.isRedoing = false := by
            simp [umRedo, hl, hcu]
          refine ⟨?_, ?_, h4, h5⟩
          · rw [h1, h2, h3, List.length_dropLast]
            omega
          · rw [h3]
            exact hM

theorem histInv_op (s : UndoMgr × XWorld) (op : HistOp) (h : HistInv s.1) :
    HistInv (applyHistOp s op).1 := by
  cases op with
  | exec c => exact histInv_execute c s.1 s.2 h
  | undoOp => exact histInv_undo s.1 s.2 h
  | redoOp => exact histInv_redo s.1 s.2 h

theorem histInv_ops (ops : List HistOp) : ∀ (s : UndoMgr × XWorld),
    HistInv s.1 → HistInv (applyHistOps ops s).1 := by
  induction ops with
  | nil => intro s h; exact h
  | cons op rest ih =>
      intro s h
      exact ih (applyHistOp s op) (histInv_op s op h)

/-- A successful execute pushes, clears redo, and evicts the oldest entry on
overflow, leaving exactly the newest `maxHistorySize` entries. -/
theorem umExecute_ok (cmd : Cmd) (m : UndoMgr) (w w' : XWorld)
    (hu : m.isUndoing = false) (hr : m.isRedoing = false)
    (hM : 1 ≤ m.maxHistorySize) (hlen : m.undoStack.length ≤ m.maxHistorySize)
    (hok : cmdExecute cmd w = .ok w') :
    (umExecute cmd m w).2.1.redoStack = [] ∧
    (umExecute cmd m w).2.1.undoStack =
      lastN m.maxHistorySize (m.undoStack ++ [cmd]) ∧
    (umExecute cmd m w).2.1.maxHistorySize = m.maxHistorySize ∧
    (umExecute cmd m w).2.1.isUndoing = false ∧
    (umExecute cmd m w).2.1.isRedoing = false ∧
    (umExecute cmd m w).2.2 = w' := by
  have h1 : (umExecute cmd m w).2.1.redoStack = [] := by
    simp [umExecute, hu, hr, hok]
  have h2 : (umExecute cmd m w).2.1.undoStack =
      (if m.maxHistorySize < (m.undoStack ++ [cmd]).length
        then (m.undoStack ++ [cmd]).tail else m.undoStack ++ [cmd]) := by
    simp [umExecute, hu, hr, hok]
  have h3 : (umExecute cmd m w).2.1.maxHistorySize = m.maxHistorySize := by
    simp [umExecute, hu, hr, hok]
  have h4 : (umExecute cmd m w).2.1.isUndoing = false := by
    simp [umExecute, hu, hr, hok]
  have h5 : (umExecute cmd m w).2.1.isRedoing = false := by
    simp [umExecute, hu, hr, hok]
  have h6 : (umExecute cmd m w).2.2 = w' := by
    simp [umExecute, hu, hr, hok]
  exact ⟨h1, h2.trans (trim_push m.maxHistorySize hM m.undoStack hlen cmd), h3, h4, h5, h6⟩

/-- Folding successful executes keeps the newest `maxHistorySize` commands,
oldest evicted first. -/
theorem execAll_spec (cs : List Cmd) : ∀ (m : UndoMgr) (w : XWorld),
    m.isUndoing = false → m.isRedoing = false → 1 ≤ m.maxHistorySize →
    m.undoStack.length ≤ m.maxHistorySize → Cmd.base ∉ cs →
    (execAll cs (m, w)).1.undoStack = lastN m.maxHistorySize (m.undoStack ++ cs) ∧
    (execAll cs (m, w)).1.maxHistorySize = m.maxHistorySize := by
  induction cs with
  | nil =>
      intro m w hu hr hM hlen hb
      refine ⟨?_, rfl⟩
      rw [List.append_nil, lastN_of_le _ _ hlen]
      exact rfl
  | cons c cs' ih =>
      intro m w hu hr hM hlen hb
      obtain ⟨vs, hvs⟩ : ∃ vs, c = Cmd.extrudeCmd vs := by
        cases hc : c with
        | base => exact absurd (hc ▸ List.mem_cons_self c cs') (hc ▸ hb)
        | extrudeCmd vs => exact ⟨vs, rfl⟩
      have hok : cmdExecute c w = .ok (extCmdApply vs w) := by rw [hvs]; rfl
      obtain ⟨hredo, hundo, hmax, hu', hr', hw⟩ :=
        umExecute_ok c m w (extCmdApply vs w) hu hr hM hlen hok
      have hstep : execAll (c :: cs') (m, w) =
          execAll cs' ((umExecute c m w).2.1, (umExecute c m w).2.2) := rfl
      have hlen' : (umExecute c m w).2.1.undoStack.length ≤
          (umExecute c m w).2.1.maxHistorySize := by
        rw [hundo, hmax, lastN_length]
        omega
      obtain ⟨h1, h2⟩ := ih (umExecute c m w).2.1 (umExecute c m w).2.2 hu' hr'
        (by rw [hmax]; exact hM) hlen' (fun hmem => hb (List.mem_cons_of_mem c hmem))
      rw [hstep, h1, h2, hundo, hmax]
      refine ⟨?_, rfl⟩
      rw [lastN_lastN_append]
      rw [List.append_assoc, List.singleton_append]

/-- C5 — counterexample to the claim as stated: `redo()` never re-trims, so
after shrinking `maxHistorySize` with redo entries pending, a redo pushes the
undo stack beyond the maximum (2 entries with maxHistorySize 1). -/
theorem C5_counterexample :
    shrinkRedoScenario.1.undoStack.length = 2 ∧
    shrinkRedoScenario.1.maxHistorySize = 1 := by decide

end VoxelEditor

namespace VoxelEditor

/-- C5 — amended.  After every successful execute the redo stack is empty and
the undo stack holds exactly the newest `maxHistorySize` commands (oldest
evicted on overflow); any sequence of execute/undo/redo from the initial
manager keeps the undo stack within `maxHistorySize` (the bound can only be
broken by shrinking `maxHistorySize` while redo entries are pending, because
`redo()` does not re-trim — see the counterexample); and executing 51
commands with the default maxHistorySize of 50 leaves exactly 50 entries with
the oldest evicted. -/
theorem C5_history_bound :
    (∀ (cmd : Cmd) (m : UndoMgr) (w w' : XWorld),
      m.isUndoing = false → m.isRedoing = false → 1 ≤ m.maxHistorySize →
      m.undoStack.length ≤ m.maxHistorySize → cmdExecute cmd w = .ok w' →
      (umExecute cmd m w).2.1.redoStack = [] ∧
      (umExecute cmd m w).2.1.undoStack =
        lastN m.maxHistorySize (m.undoStack ++ [cmd])) ∧
    (∀ (ops : List HistOp) (w : XWorld),
      (applyHistOps ops (UndoMgr.init, w)).1.undoStack.length ≤
        (applyHistOps ops (UndoMgr.init, w)).1.maxHistorySize) ∧
    (∀ (w : XWorld),
      (execAll fiftyOneCmds (UndoMgr.init, w)).1.undoStack = fiftyOneCmds.drop 1 ∧
      (execAll fiftyOneCmds (UndoMgr.init, w)).1.undoStack.length = 50 ∧
      UndoMgr.init.maxHistorySize = 50 ∧ fiftyOneCmds.length = 51) := by
  have hlen51 : fiftyOneCmds.length = 51 := by
    simp [fiftyOneCmds]
  refine ⟨?_, ?_, ?_⟩
  · intro cmd m w w' hu hr hM hlen hok
    obtain ⟨h1, h2, _, _, _, _⟩ := umExecute_ok cmd m w w' hu hr hM hlen hok
    exact ⟨h1, h2⟩
  · intro ops w
    have hinv : HistInv (applyHistOps ops (UndoMgr.init, w)).1 :=
      histInv_ops ops (UndoMgr.init, w) ⟨by simp [UndoMgr.init], by simp [UndoMgr.init], rfl, rfl⟩
    obtain ⟨hsum, _, _, _⟩ := hinv
    omega
  · intro w
    have hbase : Cmd.base ∉ fiftyOneCmds := by
      intro hmem
      simp only [fiftyOneCmds, List.mem_map] at hmem
      obtain ⟨i, _, hEq⟩ := hmem
      exact Cmd.noConfusion hEq
    obtain ⟨h1, _⟩ := execAll_spec fiftyOneCmds UndoMgr.init w rfl rfl
      (by simp [UndoMgr.init]) (by simp [UndoMgr.init]) hbase
    have hcast : lastN UndoMgr.init.maxHistorySize (UndoMgr.init.undoStack ++ fiftyOneCmds) =
        fiftyOneCmds.drop 1 := by
      show lastN 50 ([] ++ fiftyOneCmds) = fiftyOneCmds.drop 1
      rw [List.nil_append]
      unfold lastN
      rw [hlen51]
    refine ⟨h1.trans hcast, ?_, rfl, hlen51⟩
    rw [h1, hcast, List.length_drop, hlen51]

/-- Witness for `C5_history_bound`: a successful execute at the fresh manager
clears the redo stack and pushes onto the undo stack. -/
theorem C5_history_bound_witness :
    (umExecute (Cmd.extrudeCmd []) UndoMgr.init XWorld.init).2.1.redoStack = [] ∧
    (umExecute (Cmd.extrudeCmd []) UndoMgr.init XWorld.init).2.1.undoStack =
      lastN UndoMgr.init.maxHistorySize (UndoMgr.init.undoStack ++ [Cmd.extrudeCmd []]) :=
  C5_history_bound.1 (Cmd.extrudeCmd []) UndoMgr.init XWorld.init XWorld.init
    rfl rfl (by decide) (by decide) rfl

end VoxelEditor

namespace VoxelEditor

theorem getGridKey_eq (p : GridPos) : getGridKey p = p := rfl

theorem rangeZ_nodup (a b : ℤ) : (rangeZ a b).Nodup := by
  unfold rangeZ
  refine List.Nodup.map ?_ (List.nodup_range _)
  intro i j h
  simp only at h
  have h' : (i : ℤ) = (j : ℤ) := by omega
  exact_mod_cast h'

theorem mem_volumeCells_layer {p : GridPos} (x : ℤ) (ys zs : List ℤ)
    (h : p ∈ ys.flatMap (fun y => zs.map (fun z => GridPos.mk x y z))) : p.x = x := by
  obtain ⟨y, _, hy⟩ := List.mem_flatMap.mp h
  obtain ⟨z, _, rfl⟩ := List.mem_map.mp hy
  rfl

theorem volumeCells_nodup (c1 c2 : GridPos) : (volumeCells c1 c2).Nodup := by
  unfold volumeCells
  rw [List.nodup_flatMap]
  constructor
  · intro x _
    rw [List.nodup_flatMap]
    constructor
    · intro y _
      refine List.Nodup.map ?_ (rangeZ_nodup _ _)
      intro z z' h
      exact congrArg GridPos.z h
    · refine List.Pairwise.imp ?_ (rangeZ_nodup _ _)
      intro y y' hne p hp hp'
      obtain ⟨z, _, rfl⟩ := List.mem_map.mp hp
      obtain ⟨z', _, hEq⟩ := List.mem_map.mp hp'
      exact hne (congrArg GridPos.y hEq).symm
  · refine List.Pairwise.imp ?_ (rangeZ_nodup _ _)
    intro x x' hne p hp hp'
    have h1 := mem_volumeCells_layer x _ _ hp
    have h2 := mem_volumeCells_layer x' _ _ hp'
    exact hne (h1.symm.trans h2)

theorem registryInv_init : RegistryInv GBS.init := by
  refine ⟨List.nodup_nil, List.Pairwise.nil, ?_, ?_⟩
  · intro k b h
    simp [GBS.init, mapGet] at h
  · intro b hb
    simp [GBS.init] at hb

/-- Adding a solid block at an unoccupied cell preserves the registry
invariant and leaves every other cell's occupancy unchanged. -/
theorem registryInv_addSolidBlock (w : GBS) (p : GridPos)
    (hinv : RegistryInv w) (hfree : isOccupied w.blocks p = false) :
    RegistryInv (addSolidBlock w p) ∧
    (∀ q : GridPos, q ≠ p →
      isOccupied (addSolidBlock w p).blocks q = isOccupied w.blocks q) := by
  obtain ⟨hkeys, hpw, hfwd, hbwd⟩ := hinv
  simp only [getGridKey_eq] at hpw hfwd hbwd
  have hblocks : (addSolidBlock w p).blocks = mapSet w.blocks p ⟨w.nextId, p⟩ := rfl
  have hscene : (addSolidBlock w p).scene = w.scene ++ [⟨w.nextId, p⟩] := rfl
  have hnone : mapGet w.blocks p = none := by
    unfold isOccupied getGridKey at hfree
    cases hget : mapGet w.blocks p with
    | none => rfl
    | some b => rw [hget] at hfree; simp at hfree
  constructor
  · refine ⟨?_, ?_, ?_, ?_⟩
    · rw [hblocks]
      exact mapSet_keys_nodup _ _ _ hkeys
    · simp only [getGridKey_eq]
      rw [hscene, List.pairwise_append]
      refine ⟨hpw, List.pairwise_singleton _ _, ?_⟩
      intro b hb b' hb'
      rw [List.mem_singleton] at hb'
      subst hb'
      intro hEq
      have hEq' : b.pos = p := hEq
      have hmg := hbwd b hb
      rw [hEq'] at hmg
      rw [hmg] at hnone
      exact Option.noConfusion hnone
    · simp only [getGridKey_eq]
      intro k b hget
      rw [hblocks] at hget
      rw [hscene]
      by_cases hk : k = p
      · subst hk
        rw [mapGet_set_self] at hget
        cases hget
        exact ⟨List.mem_append_right _ (List.mem_singleton_self _), rfl⟩
      · rw [mapGet_set_ne _ _ _ _ hk] at hget
        obtain ⟨hmem, hkey⟩ := hfwd k b hget
        exact ⟨List.mem_append_left _ hmem, hkey⟩
    · simp only [getGridKey_eq]
      intro b hb
      rw [hscene, List.mem_append] at hb
      rw [hblocks]
      cases hb with
      | inl hb =>
          have hne : b.pos ≠ p := by
            intro hEq
            have hmg := hbwd b hb
            rw [hEq] at hmg
            rw [hmg] at hnone
            exact Option.noConfusion hnone
          rw [mapGet_set_ne _ _ _ _ hne]
          exact hbwd b hb
      | inr hb =>
          rw [List.mem_singleton] at hb
          subst hb
          exact mapGet_set_self _ _ _
  · intro q hq
    unfold isOccupied
    simp only [getGridKey_eq]
    rw [hblocks, mapGet_set_ne _ _ _ _ hq]

theorem registryInv_addAll (P : List GridPos) : ∀ (w : GBS),
    RegistryInv w → P.Nodup → (∀ p ∈ P, isOccupied w.blocks p = false) →
    RegistryInv (P.foldl addSolidBlock w) := by
  induction P with
  | nil => intro w h _ _; exact h
  | cons p rest ih =>
      intro w hinv hnodup hfree
      rw [List.foldl_cons]
      obtain ⟨hinv', hocc⟩ :=
        registryInv_addSolidBlock w p hinv (hfree p (List.mem_cons_self p rest))
      rw [List.nodup_cons] at hnodup
      apply ih _ hinv' hnodup.2
      intro q hq
      have hqp : q ≠ p := by
        intro hEq
        exact hnodup.1 (hEq ▸ hq)
      rw [hocc q hqp]
      exact hfree q (List.mem_cons_of_mem _ hq)

theorem updatePreview_previews (c1 c2 : GridPos) (w : GBS) :
    (updateVolumePreview c1 c2 w).previewBlocks.Nodup ∧
    ∀ p ∈ (updateVolumePreview c1 c2 w).previewBlocks,
      isOccupied w.blocks p = false := by
  constructor
  · exact (volumeCells_nodup c1 c2).filter _
  · intro p hp
    simp only [updateVolumePreview, clearPreview, List.mem_filter] at hp
    have h2 := hp.2
    rw [Bool.and_eq_true] at h2
    have h1 := h2.1
    rw [Bool.not_eq_true'] at h1
    exact h1

theorem registryInv_finalize (w : GBS) (hinv : RegistryInv w)
    (hnodup : w.previewBlocks.Nodup)
    (hfree : ∀ p ∈ w.previewBlocks, isOccupied w.blocks p = false) :
    RegistryInv (finalizeVolume w) := by
  unfold finalizeVolume
  by_cases hc : w.previewBlocks.length = 0
  · rw [if_pos hc]
    exact hinv
  · rw [if_neg hc]
    exact registryInv_addAll w.previewBlocks w hinv hnodup hfree

theorem registryInv_createVolume (c1 c2 : GridPos) (w : GBS)
    (hinv : RegistryInv w) : RegistryInv (createVolume c1 c2 w) := by
  unfold createVolume
  obtain ⟨hnd, hfr⟩ := updatePreview_previews c1 c2 w
  exact registryInv_finalize _ hinv hnd hfr

theorem registryInv_deleteBlock (p : GridPos) (w : GBS)
    (hinv : RegistryInv w) : RegistryInv (deleteBlock p w) := by
  obtain ⟨hkeys, hpw, hfwd, hbwd⟩ := hinv
  simp only [getGridKey_eq] at hpw hfwd hbwd
  cases hget : mapGet w.blocks p with
  | none =>
      have hres : deleteBlock p w = w := by
        simp [deleteBlock, getGridKey_eq, hget]
      rw [hres]
      exact ⟨hkeys, hpw, hfwd, hbwd⟩
  | some b =>
      have hblocks : (deleteBlock p w).blocks = mapDelete w.blocks p := by
        simp [deleteBlock, getGridKey_eq, hget]
      have hscene : (deleteBlock p w).scene = w.scene.erase b := by
        simp [deleteBlock, getGridKey_eq, hget]
      have hscene_nodup : w.scene.Nodup := by
        refine hpw.imp ?_
        intro a b' hR hEq
        exact hR (by rw [hEq])
      have hbkey := hfwd p b hget
      refine ⟨?_, ?_, ?_, ?_⟩
      · rw [hblocks]
        exact hkeys.sublist ((mapDelete_sublist w.blocks p).map Prod.fst)
      · simp only [getGridKey_eq]
        rw [hscene]
        exact hpw.sublist (List.erase_sublist b w.scene)
      · simp only [getGridKey_eq]
        intro k b' hget'
        rw [hblocks] at hget'
        rw [hscene]
        by_cases hk : k = p
        · subst hk
          rw [mapGet_delete_self _ _ hkeys] at hget'
          exact Option.noConfusion hget'
        · rw [mapGet_delete_ne _ _ _ hk] at hget'
          obtain ⟨hmem, hkey⟩ := hfwd k b' hget'
          refine ⟨?_, hkey⟩
          have hne : b' ≠ b := by
            intro hEq
            rw [hEq] at hkey
            exact hk (hkey.symm.trans hbkey.2)
          exact (List.mem_erase_of_ne hne).mpr hmem
      · simp only [getGridKey_eq]
        intro b' hb'
        rw [hscene] at hb'
        rw [hblocks]
        obtain ⟨hne, hb'mem⟩ := (hscene_nodup.mem_erase_iff).mp hb'
        have hkey_ne : b'.pos ≠ p := by
          intro hEq
          have hmg := hbwd b' hb'mem
          rw [hEq, hget] at hmg
          exact hne (Option.some.inj hmg).symm
        rw [mapGet_delete_ne _ _ _ hkey_ne]
        exact hbwd b' hb'mem

theorem registryInv_applyVolOp (w : GBS) (op : VolOp) (hinv : RegistryInv w) :
    RegistryInv (applyVolOp w op) := by
  cases op with
  | create c1 c2 => exact registryInv_createVolume c1 c2 w hinv
  | preview c1 c2 => exact hinv
  | clearPrev => exact hinv
  | deleteAt p => exact registryInv_deleteBlock p w hinv

/-- C1 — amended.  Placements through the volume preview/finalize path reject
occupied cells, so after any sequence of volume creations, preview updates,
preview clears and block deletions the registry holds one entry per occupied
cell: no two scene voxels share a grid key, and a voxel exists under key K
exactly when a voxel occupies the cell K encodes (and the entry is that
voxel).  `CreateBlockCommand.execute` performs no such check — see the
counterexample. -/
theorem C1_registry_one_voxel_per_cell (ops : List VolOp) :
    RegistryInv (ops.foldl applyVolOp GBS.init) := by
  have h : ∀ (w : GBS), RegistryInv w → RegistryInv (ops.foldl applyVolOp w) := by
    induction ops with
    | nil => intro w h; exact h
    | cons op rest ih =>
        intro w hinv
        rw [List.foldl_cons]
        exact ih _ (registryInv_applyVolOp w op hinv)
  exact h GBS.init registryInv_init

/-- C1 — counterexample to the claim as stated: `CreateBlockCommand.execute`
places on an already-occupied cell without rejecting it, leaving two distinct
voxels sharing one grid key (the registry overwrites the first entry). -/
theorem C1_counterexample :
    (⟨1, ⟨0, 0, 0⟩⟩ : Voxel) ∈
      (createBlockExec [⟨2, ⟨0, 0, 0⟩⟩]
        (createBlockExec [⟨1, ⟨0, 0, 0⟩⟩] GBS.init)).scene ∧
    (⟨2, ⟨0, 0, 0⟩⟩ : Voxel) ∈
      (createBlockExec [⟨2, ⟨0, 0, 0⟩⟩]
        (createBlockExec [⟨1, ⟨0, 0, 0⟩⟩] GBS.init)).scene ∧
    (⟨1, ⟨0, 0, 0⟩⟩ : Voxel) ≠ ⟨2, ⟨0, 0, 0⟩⟩ ∧
    getGridKey (⟨1, ⟨0, 0, 0⟩⟩ : Voxel).pos =
      getGridKey (⟨2, ⟨0, 0, 0⟩⟩ : Voxel).pos := by decide

end VoxelEditor

namespace VoxelEditor

theorem flatMap_single (l : List ℤ) (f : ℤ → GridPos) :
    (l.flatMap fun x => [f x]) = l.map f := by
  induction l with
  | nil => rfl
  | cons a t ih => simp [ih]

theorem addAll_blocks_length (P : List GridPos) : ∀ (w : GBS),
    P.Nodup → (∀ p ∈ P, isOccupied w.blocks p = false) →
    ((P.foldl addSolidBlock w).blocks).length = w.blocks.length + P.length := by
  induction P with
  | nil => intro w _ _; simp
  | cons p rest ih =>
      intro w hnodup hfree
      rw [List.foldl_cons]
      have hocc := hfree p (List.mem_cons_self p rest)
      have hnone : mapGet w.blocks p = none := by
        unfold isOccupied getGridKey at hocc
        cases hget : mapGet w.blocks p with
        | none => rfl
        | some b => rw [hget] at hocc; simp at hocc
      rw [List.nodup_cons] at hnodup
      have hblocks : (addSolidBlock w p).blocks = mapSet w.blocks p ⟨w.nextId, p⟩ := rfl
      rw [ih (addSolidBlock w p) hnodup.2 ?_]
      · rw [hblocks, mapSet_length _ _ _ hnone, List.length_cons]
        omega
      · intro q hq
        have hqp : q ≠ p := fun hEq => hnodup.1 (hEq ▸ hq)
        unfold isOccupied
        simp only [getGridKey_eq]
        rw [hblocks, mapGet_set_ne _ _ _ _ hqp]
        have := hfree q (List.mem_cons_of_mem _ hq)
        unfold isOccupied getGridKey at this
        exact this

theorem rod_cells :
    volumeCells ⟨0, 0, 0⟩ ⟨1099, 0, 0⟩ =
      (rangeZ 0 1099).map (fun x => GridPos.mk x 0 0) := by
  have hmin : min (0 : ℤ) 1099 = 0 := by norm_num
  have hmax : max (0 : ℤ) 1099 = 1099 := by norm_num
  have hy : rangeZ (min (0 : ℤ) 0) (max (0 : ℤ) 0) = [0] := by decide
  show (rangeZ (min (0 : ℤ) 1099) (max (0 : ℤ) 1099)).flatMap (fun x =>
      (rangeZ (min (0 : ℤ) 0) (max (0 : ℤ) 0)).flatMap (fun y =>
        (rangeZ (min (0 : ℤ) 0) (max (0 : ℤ) 0)).map (fun z => GridPos.mk x y z))) = _
  rw [hmin, hmax, hy, ← flatMap_single]
  congr 1

theorem rod_cells_length :
    (volumeCells ⟨0, 0, 0⟩ ⟨1099, 0, 0⟩).length = 1100 := by
  rw [rod_cells, List.length_map]
  unfold rangeZ
  rw [List.length_map, List.length_range]
  decide

/-- C8 — the spec-modelled `canPlace` is false once the voxel count reaches
the configured maximum; but `GridBlockSystem` never consults its own
`maxBlocks` limit: a single volume creation of an 1100-cell rod from the
empty world registers 1100 blocks, exceeding maxBlocks = 1000. -/
theorem C8_maxBlocks_not_enforced :
    (∀ (s : VCS) (p : GridPos), s.maxVoxelCount ≤ s.voxels.length →
      canPlaceVoxel s p = false) ∧
    maxBlocks = 1000 ∧
    (createVolume ⟨0, 0, 0⟩ ⟨1099, 0, 0⟩ GBS.init).blocks.length = 1100 := by
  refine ⟨?_, rfl, ?_⟩
  · intro s p h
    unfold canPlaceVoxel
    have hd : decide (s.voxels.length < s.maxVoxelCount) = false := by
      simp only [decide_eq_false_iff_not]
      omega
    rw [hd, Bool.and_false]
  · have hw1 : (updateVolumePreview ⟨0, 0, 0⟩ ⟨1099, 0, 0⟩ GBS.init).previewBlocks =
        volumeCells ⟨0, 0, 0⟩ ⟨1099, 0, 0⟩ := by
      unfold updateVolumePreview
      apply List.filter_eq_self.mpr
      intro p _
      simp [clearPreview, GBS.init, isOccupied, mapGet]
    have hw1blocks : (updateVolumePreview ⟨0, 0, 0⟩ ⟨1099, 0, 0⟩ GBS.init).blocks = [] := rfl
    have hfree2 : ∀ p ∈ volumeCells ⟨0, 0, 0⟩ ⟨1099, 0, 0⟩,
        isOccupied (updateVolumePreview ⟨0, 0, 0⟩ ⟨1099, 0, 0⟩ GBS.init).blocks p = false := by
      intro p _
      rw [hw1blocks]
      rfl
    show (finalizeVolume (updateVolumePreview ⟨0, 0, 0⟩ ⟨1099, 0, 0⟩ GBS.init)).blocks.length = 1100
    simp only [finalizeVolume]
    rw [hw1, rod_cells_length]
    rw [if_neg (by decide)]
    simp only [clearPreview]
    rw [addAll_blocks_length _ _ (volumeCells_nodup _ _) hfree2]
    rw [hw1blocks, rod_cells_length]
    rfl

/-- Witness for `C8_maxBlocks_not_enforced`: a registry configured with
maximum 0 refuses placement even on an empty unoccupied grid. -/
theorem C8_maxBlocks_not_enforced_witness :
    canPlaceVoxel ⟨[], 0⟩ ⟨0, 0, 0⟩ = false :=
  C8_maxBlocks_not_enforced.1 ⟨[], 0⟩ ⟨0, 0, 0⟩ (by decide)

end VoxelEditor

namespace VoxelEditor

theorem canPlace_get_none (s : VCS) (p : GridPos)
    (h : canPlaceVoxel s p = true) : mapGet s.voxels p = none := by
  unfold canPlaceVoxel at h
  rw [Bool.and_eq_true] at h
  cases hg : mapGet s.voxels p with
  | none => rfl
  | some v' =>
      exfalso
      rw [hg] at h
      simp at h

theorem registerVoxel_free (s : VCS) (v : Voxel) (p : GridPos)
    (h : mapGet s.voxels p = none) :
    (registerVoxel s v p).voxels = s.voxels ++ [(p, v)] := by
  simp only [registerVoxel, h]
  exact mapSet_append s.voxels p v h

theorem registerVoxel_self (s : VCS) (v : Voxel)
    (h : ∀ v', mapGet s.voxels v.pos = some v' → v' = v) :
    (registerVoxel s v v.pos).voxels = mapSet s.voxels v.pos v := by
  cases hg : mapGet s.voxels v.pos with
  | none => simp [registerVoxel, hg]
  | some v' =>
      have hv := h v' hg
      simp [registerVoxel, hg, hv]

/-- Loop invariant of the extrusion walk `extrudeGo`: starting at step `i`
with `fuel` remaining steps, some list `vs` of fresh voxels is appended to the
accumulator and to the scene, its registry pairs are appended to the registry,
its positions are the consecutive cells `i, i+1, ...` of the walk, and when
the walk stops early the next cell is blocked. -/
theorem extrudeGo_spec (f : FaceData) (d : ℤ) :
    ∀ (fuel i : ℕ) (w : XWorld) (acc : List Voxel),
      ∃ vs : List Voxel,
        (extrudeGo f d i fuel w acc).1 = acc ++ vs ∧
        vs.length ≤ fuel ∧
        vs.map Voxel.pos =
          (List.range vs.length).map (fun j => extrudeCell f d (i + j)) ∧
        (extrudeGo f d i fuel w acc).2.vcs.voxels =
          w.vcs.voxels ++ vs.map (fun v => (v.pos, v)) ∧
        (extrudeGo f d i fuel w acc).2.scene = w.scene ++ vs ∧
        (vs.length < fuel →
          canPlaceVoxel (extrudeGo f d i fuel w acc).2.vcs
            (extrudeCell f d (i + vs.length)) = false) := by
  intro fuel
  induction fuel with
  | zero =>
      intro i w acc
      refine ⟨[], by simp [extrudeGo], by simp, by simp, by simp [extrudeGo],
        by simp [extrudeGo], ?_⟩
      intro h
      exact absurd h (by simp)
  | succ fuel ih =>
      intro i w acc
      by_cases hcp : canPlaceVoxel w.vcs (extrudeCell f d i) = true
      · have hstep : extrudeGo f d i (fuel + 1) w acc =
            extrudeGo f d (i + 1) fuel
              { w with
                  vcs := registerVoxel w.vcs ⟨w.nextId, extrudeCell f d i⟩
                    (extrudeCell f d i),
                  scene := w.scene ++ [⟨w.nextId, extrudeCell f d i⟩],
                  nextId := w.nextId + 1 }
              (acc ++ [⟨w.nextId, extrudeCell f d i⟩]) := by
          simp only [extrudeGo]
          rw [if_pos hcp]
        have hnone : mapGet w.vcs.voxels (extrudeCell f d i) = none :=
          canPlace_get_none _ _ hcp
        obtain ⟨vs', h1, h2, h3, h4, h5, h6⟩ := ih (i + 1)
          { w with
              vcs := registerVoxel w.vcs ⟨w.nextId, extrudeCell f d i⟩
                (extrudeCell f d i),
              scene := w.scene ++ [⟨w.nextId, extrudeCell f d i⟩],
              nextId := w.nextId + 1 }
          (acc ++ [⟨w.nextId, extrudeCell f d i⟩])
        dsimp only at h4 h5
        rw [registerVoxel_free w.vcs ⟨w.nextId, extrudeCell f d i⟩
          (extrudeCell f d i) hnone] at h4
        refine ⟨⟨w.nextId, extrudeCell f d i⟩ :: vs', ?_, ?_, ?_, ?_, ?_, ?_⟩
        · rw [hstep, h1, List.append_assoc]
          rfl
        · simp only [List.length_cons]
          omega
        · rw [List.length_cons, List.range_succ_eq_map, List.map_cons,
            List.map_cons, List.map_map]
          simp only [List.cons.injEq]
          constructor
          · show extrudeCell f d i = extrudeCell f d (i + 0)
            rw [Nat.add_zero]
          · rw [h3]
            apply List.map_congr_left
            intro j _
            show extrudeCell f d (i + 1 + j) = extrudeCell f d (i + Nat.succ j)
            congr 1
            omega
        · rw [hstep, h4, List.append_assoc]
          rfl
        · rw [hstep, h5, List.append_assoc]
          rfl
        · intro hlt
          have hidx : i + (⟨w.nextId, extrudeCell f d i⟩ :: vs').length =
              (i + 1) + vs'.length := by
            simp only [List.length_cons]
            omega
          rw [hstep, hidx]
          apply h6
          simp only [List.length_cons] at hlt
          omega
      · have hcp' : canPlaceVoxel w.vcs (extrudeCell f d i) = false := by
          cases hc : canPlaceVoxel w.vcs (extrudeCell f d i) with
          | false => rfl
          | true => exact absurd hc hcp
        have hstep : extrudeGo f d i (fuel + 1) w acc = (acc, w) := by
          simp only [extrudeGo]
          rw [if_neg ?hfalse]
          case hfalse =>
            rw [hcp']
            simp
        refine ⟨[], by rw [hstep]; simp, by simp, by simp,
          by rw [hstep]; simp, by rw [hstep]; simp, ?_⟩
        intro _
        rw [hstep]
        simpa using hcp'

/-- C2 — `VoxelExtruder.extrude`: zero distance fails immediately with the
"zero-distance" reason and changes nothing; a nonzero distance walks cells
1..|d| outward, stops at the first blocked cell, leaves every created voxel
registered and in the scene (no rollback), and reports the count actually
created; in the spec's example (distance 5, 3rd step occupied) exactly the
first 2 cells are created and registered and the count is 2. -/
theorem C2_extrude_spec (f : FaceData) (d : ℤ) (w : XWorld) :
    (d = 0 → extrude f d w = (⟨false, some ("zero-distance"), [], 0⟩, w)) ∧
    (d ≠ 0 →
      (extrude f d w).1.success = true ∧
      (extrude f d w).1.count = (extrude f d w).1.voxels.length ∧
      (extrude f d w).1.voxels.length ≤ d.natAbs ∧
      (extrude f d w).1.voxels.map Voxel.pos =
        (List.range (extrude f d w).1.voxels.length).map
          (fun j => extrudeCell f d (1 + j)) ∧
      (extrude f d w).2.vcs.voxels =
        w.vcs.voxels ++ (extrude f d w).1.voxels.map (fun v => (v.pos, v)) ∧
      (extrude f d w).2.scene = w.scene ++ (extrude f d w).1.voxels ∧
      ((extrude f d w).1.voxels.length < d.natAbs →
        canPlaceVoxel (extrude f d w).2.vcs
          (extrudeCell f d (1 + (extrude f d w).1.voxels.length)) = false)) ∧
    ((extrude ⟨⟨0, 0, 0⟩, ⟨1, 0, 0⟩⟩ 5 blockedWorld).1.count = 2 ∧
      (extrude ⟨⟨0, 0, 0⟩, ⟨1, 0, 0⟩⟩ 5 blockedWorld).2.vcs.voxels =
        blockedWorld.vcs.voxels ++
          [(⟨1, 0, 0⟩, ⟨0, ⟨1, 0, 0⟩⟩), (⟨2, 0, 0⟩, ⟨1, ⟨2, 0, 0⟩⟩)]) := by
  refine ⟨?_, ?_, by decide⟩
  · intro hd
    subst hd
    rfl
  · intro hd
    have hext1 : (extrude f d w).1 =
        ⟨true, none, (extrudeGo f d 1 d.natAbs w []).1,
          (extrudeGo f d 1 d.natAbs w []).1.length⟩ := by
      simp [extrude, hd]
    have hext2 : (extrude f d w).2 = (extrudeGo f d 1 d.natAbs w []).2 := by
      simp [extrude, hd]
    obtain ⟨vs, h1, h2, h3, h4, h5, h6⟩ := extrudeGo_spec f d d.natAbs 1 w []
    have hvs : (extrudeGo f d 1 d.natAbs w []).1 = vs := by simpa using h1
    have hvox : (extrude f d w).1.voxels = vs := by
      rw [hext1]
      exact hvs
    refine ⟨?_, ?_, ?_, ?_, ?_, ?_, ?_⟩
    · rw [hext1]
    · rw [hext1]
    · rw [hvox]
      exact h2
    · rw [hvox]
      exact h3
    · rw [hext2, hvox, h4]
    · rw [hext2, hvox, h5]
    · intro hlt
      rw [hvox] at hlt
      rw [hext2, hvox]
      exact h6 hlt

/-- Witness for `C2_extrude_spec`: the zero-distance branch at a concrete
face, and the concrete count of the blocked-at-step-3 scenario. -/
theorem C2_extrude_spec_witness :
    extrude ⟨⟨0, 0, 0⟩, ⟨1, 0, 0⟩⟩ 0 XWorld.init =
      (⟨false, some ("zero-distance"), [], 0⟩, XWorld.init) ∧
    (extrude ⟨⟨0, 0, 0⟩, ⟨1, 0, 0⟩⟩ 5 blockedWorld).1.count = 2 :=
  ⟨(C2_extrude_spec ⟨⟨0, 0, 0⟩, ⟨1, 0, 0⟩⟩ 0 XWorld.init).1 rfl,
    (C2_extrude_spec ⟨⟨0, 0, 0⟩, ⟨1, 0, 0⟩⟩ 5 blockedWorld).2.2.1⟩

end VoxelEditor

namespace VoxelEditor

/-- C3 — counterexample to the claim as stated: executing an
`ExtrudeCommand` whose voxel targets a cell already registered to a different
voxel leaves the old registry entry in place (`register` is a no-op on an
occupied cell), but `undo` removes that entry and `redo` then registers the
command's own voxel — so the post-redo registry differs from the
post-execute registry at that cell. -/
theorem C3_counterexample :
    getVoxelAt (applyHistOp (UndoMgr.init, c3World) (HistOp.exec c3Cmd)).2.vcs
        ⟨0, 0, 0⟩ = some ⟨1, ⟨0, 0, 0⟩⟩ ∧
    getVoxelAt (applyHistOps [HistOp.exec c3Cmd, HistOp.undoOp, HistOp.redoOp]
        (UndoMgr.init, c3World)).2.vcs ⟨0, 0, 0⟩ = some ⟨2, ⟨0, 0, 0⟩⟩ ∧
    getVoxelAt (applyHistOps [HistOp.exec c3Cmd, HistOp.undoOp, HistOp.redoOp]
        (UndoMgr.init, c3World)).2.vcs ⟨0, 0, 0⟩ ≠
      getVoxelAt (applyHistOp (UndoMgr.init, c3World) (HistOp.exec c3Cmd)).2.vcs
        ⟨0, 0, 0⟩ := by
  decide

theorem trim_getLast (M : ℕ) (hM : 1 ≤ M) (us : List Cmd) (c : Cmd) :
    (if M < (us ++ [c]).length then (us ++ [c]).tail
      else us ++ [c]).getLast? = some c := by
  by_cases hlen : M < (us ++ [c]).length
  · rw [if_pos hlen]
    cases us with
    | nil =>
        exfalso
        simp at hlen
        omega
    | cons a t =>
        rw [List.cons_append, List.tail_cons]
        exact List.getLast?_concat _
  · rw [if_neg hlen]
    exact List.getLast?_concat _

theorem mem_sceneAdd (l : List Voxel) (v u : Voxel) :
    u ∈ sceneAdd l v ↔ u ∈ l ∨ u = v := by
  unfold sceneAdd
  rw [List.mem_append, List.mem_singleton]
  constructor
  · rintro (h | h)
    · exact Or.inl (List.mem_of_mem_erase h)
    · exact Or.inr h
  · rintro (h | h)
    · by_cases hv : u = v
      · exact Or.inr hv
      · exact Or.inl ((List.mem_erase_of_ne hv).mpr h)
    · exact Or.inr h

theorem sceneAdd_nodup (l : List Voxel) (v : Voxel) (h : l.Nodup) :
    (sceneAdd l v).Nodup := by
  unfold sceneAdd
  refine List.Nodup.append (h.erase v) (List.nodup_singleton v) ?_
  intro a ha hb
  rw [List.mem_singleton] at hb
  subst hb
  exact (h.mem_erase_iff.mp ha).1 rfl

theorem extCmdApply_scene_mem (vs : List Voxel) :
    ∀ (w : XWorld) (u : Voxel),
      u ∈ (extCmdApply vs w).scene ↔ u ∈ w.scene ∨ u ∈ vs := by
  induction vs with
  | nil =>
      intro w u
      simp [extCmdApply]
  | cons v vs' ih =>
      intro w u
      have hstep : extCmdApply (v :: vs') w = extCmdApply vs' (extCmdStep w v) := rfl
      have hscene : (extCmdStep w v).scene = sceneAdd w.scene v := rfl
      rw [hstep, ih (extCmdStep w v) u, hscene, mem_sceneAdd, List.mem_cons]
      tauto

theorem extCmdApply_scene_nodup (vs : List Voxel) :
    ∀ (w : XWorld), w.scene.Nodup → (extCmdApply vs w).scene.Nodup := by
  induction vs with
  | nil =>
      intro w h
      exact h
  | cons v vs' ih =>
      intro w h
      exact ih (extCmdStep w v) (sceneAdd_nodup w.scene v h)

theorem extCmdRevert_scene (vs : List Voxel) :
    ∀ (w : XWorld), w.scene.Nodup →
      (extCmdRevert vs w).scene.Nodup ∧
      (∀ u, u ∈ (extCmdRevert vs w).scene ↔ u ∈ w.scene ∧ u ∉ vs) := by
  induction vs with
  | nil =>
      intro w h
      exact ⟨h, fun u => by simp [extCmdRevert]⟩
  | cons v vs' ih =>
      intro w h
      have hscene2 : (extCmdRevertStep w v).scene = w.scene.erase v := rfl
      obtain ⟨ihN, ihM⟩ := ih (extCmdRevertStep w v) (by rw [hscene2]; exact h.erase v)
      refine ⟨ihN, ?_⟩
      intro u
      have hstep : extCmdRevert (v :: vs') w = extCmdRevert vs' (extCmdRevertStep w v) := rfl
      rw [hstep, ihM u, hscene2, h.mem_erase_iff, List.mem_cons]
      tauto

/-- Registry effect of `ExtrudeCommand.execute` over a list of voxels whose
cells are each free or already registered to that same voxel: the lookup at a
cell of the list yields the (first) voxel of the list at that cell, other
lookups are untouched, and key uniqueness is preserved. -/
theorem extCmdApply_vcs (vs : List Voxel) :
    ∀ (w : XWorld),
      (w.vcs.voxels.map Prod.fst).Nodup →
      (∀ v ∈ vs, ∀ v', mapGet w.vcs.voxels v.pos = some v' → v' = v) →
      vs.Pairwise (fun a b => a.pos ≠ b.pos) →
      ((extCmdApply vs w).vcs.voxels.map Prod.fst).Nodup ∧
      (∀ k u, vs.find? (fun x => decide (x.pos = k)) = some u →
        mapGet (extCmdApply vs w).vcs.voxels k = some u) ∧
      (∀ k, vs.find? (fun x => decide (x.pos = k)) = none →
        mapGet (extCmdApply vs w).vcs.voxels k = mapGet w.vcs.voxels k) := by
  induction vs with
  | nil =>
      intro w hkeys _ _
      refine ⟨hkeys, ?_, ?_⟩
      · intro k u h
        simp at h
      · intro k _
        rfl
  | cons v vs' ih =>
      intro w hkeys hfree hdist
      have hstep : extCmdApply (v :: vs') w = extCmdApply vs' (extCmdStep w v) := rfl
      have hv_free : ∀ v', mapGet w.vcs.voxels v.pos = some v' → v' = v :=
        hfree v (List.mem_cons_self v vs')
      have hvox2 : (extCmdStep w v).vcs.voxels = mapSet w.vcs.voxels v.pos v := by
        show (registerVoxel w.vcs v v.pos).voxels = _
        exact registerVoxel_self w.vcs v hv_free
      have hkeys2 : ((extCmdStep w v).vcs.voxels.map Prod.fst).Nodup := by
        rw [hvox2]
        exact mapSet_keys_nodup _ _ _ hkeys
      have hdist' := List.pairwise_cons.mp hdist
      have hfree2 : ∀ x ∈ vs', ∀ v',
          mapGet (extCmdStep w v).vcs.voxels x.pos = some v' → v' = x := by
        intro x hx v' hget
        rw [hvox2, mapGet_set_ne _ _ _ _ (Ne.symm (hdist'.1 x hx))] at hget
        exact hfree x (List.mem_cons_of_mem v hx) v' hget
      obtain ⟨ihK, ihS, ihN⟩ := ih (extCmdStep w v) hkeys2 hfree2 hdist'.2
      refine ⟨by rw [hstep]; exact ihK, ?_, ?_⟩
      · intro k u hfind
        rw [hstep]
        by_cases hp : v.pos = k
        · have hpred : decide (v.pos = k) = true := by simp [hp]
          simp only [List.find?_cons, hpred] at hfind
          have hu : v = u := Option.some.inj hfind
          have hnone' : vs'.find? (fun x => decide (x.pos = k)) = none := by
            apply List.find?_eq_none.mpr
            intro x hx
            simp only [decide_eq_true_eq]
            rw [← hp]
            exact Ne.symm (hdist'.1 x hx)
          rw [ihN k hnone', hvox2, ← hp, mapGet_set_self, hu]
        · have hpred : decide (v.pos = k) = false := by simp [hp]
          simp only [List.find?_cons, hpred] at hfind
          exact ihS k u hfind
      · intro k hfind
        rw [hstep]
        have h0 := List.find?_eq_none.mp hfind
        have hpv : ¬ v.pos = k := by
          simpa using h0 v (List.mem_cons_self v vs')
        have hnone' : vs'.find? (fun x => decide (x.pos = k)) = none :=
          List.find?_eq_none.mpr (fun x hx => h0 x (List.mem_cons_of_mem v hx))
        rw [ihN k hnone', hvox2, mapGet_set_ne _ _ _ _ (fun hEq => hpv hEq.symm)]

/-- Registry effect of `ExtrudeCommand.undo`: lookups at cells of the list
become absent, other lookups are untouched, key uniqueness is preserved. -/
theorem extCmdRevert_vcs (vs : List Voxel) :
    ∀ (w : XWorld),
      (w.vcs.voxels.map Prod.fst).Nodup →
      ((extCmdRevert vs w).vcs.voxels.map Prod.fst).Nodup ∧
      (∀ k u, vs.find? (fun x => decide (x.pos = k)) = some u →
        mapGet (extCmdRevert vs w).vcs.voxels k = none) ∧
      (∀ k, vs.find? (fun x => decide (x.pos = k)) = none →
        mapGet (extCmdRevert vs w).vcs.voxels k = mapGet w.vcs.voxels k) := by
  induction vs with
  | nil =>
      intro w hkeys
      refine ⟨hkeys, ?_, ?_⟩
      · intro k u h
        simp at h
      · intro k _
        rfl
  | cons v vs' ih =>
      intro w hkeys
      have hstep : extCmdRevert (v :: vs') w = extCmdRevert vs' (extCmdRevertStep w v) := rfl
      have hvox2 : (extCmdRevertStep w v).vcs.voxels = mapDelete w.vcs.voxels v.pos := rfl
      have hkeys2 : ((extCmdRevertStep w v).vcs.voxels.map Prod.fst).Nodup := by
        rw [hvox2]
        exact List.Nodup.sublist ((mapDelete_sublist w.vcs.voxels v.pos).map Prod.fst) hkeys
      obtain ⟨ihK, ihS, ihN⟩ := ih (extCmdRevertStep w v) hkeys2
      refine ⟨by rw [hstep]; exact ihK, ?_, ?_⟩
      · intro k u hfind
        rw [hstep]
        by_cases hp : v.pos = k
        · cases hf' : vs'.find? (fun x => decide (x.pos = k)) with
          | some u' => exact ihS k u' hf'
          | none =>
              rw [ihN k hf', hvox2, ← hp]
              exact mapGet_delete_self _ _ hkeys
        · have hpred : decide (v.pos = k) = false := by simp [hp]
          simp only [List.find?_cons, hpred] at hfind
          exact ihS k u hfind
      · intro k hfind
        rw [hstep]
        have h0 := List.find?_eq_none.mp hfind
        have hpv : ¬ v.pos = k := by
          simpa using h0 v (List.mem_cons_self v vs')
        have hnone' : vs'.find? (fun x => decide (x.pos = k)) = none :=
          List.find?_eq_none.mpr (fun x hx => h0 x (List.mem_cons_of_mem v hx))
        rw [ihN k hnone', hvox2, mapGet_delete_ne _ _ _ (fun hEq => hpv hEq.symm)]

end VoxelEditor

namespace VoxelEditor

/-- C3 — amended: for an `ExtrudeCommand` over voxels with pairwise-distinct
cells, each free or already registered to that same voxel, in a well-formed
world (unique registry keys, duplicate-free scene) and a manager with clear
flags and a positive history bound, `execute` then `undo` then `redo`
restores exactly the post-execute state by value: the same scene membership
and the same registry lookup at every cell. -/
theorem C3_undo_redo_restores (vs : List Voxel) (m : UndoMgr) (w : XWorld)
    (hu : m.isUndoing = false) (hr : m.isRedoing = false)
    (hM : 1 ≤ m.maxHistorySize)
    (hkeys : (w.vcs.voxels.map Prod.fst).Nodup)
    (hscene : w.scene.Nodup)
    (hdist : vs.Pairwise (fun a b => a.pos ≠ b.pos))
    (hfree : ∀ v ∈ vs, ∀ v', mapGet w.vcs.voxels v.pos = some v' → v' = v) :
    ∀ (u : Voxel) (k : GridPos),
      (u ∈ (applyHistOps [HistOp.exec (Cmd.extrudeCmd vs), HistOp.undoOp,
              HistOp.redoOp] (m, w)).2.scene ↔
        u ∈ (applyHistOp (m, w) (HistOp.exec (Cmd.extrudeCmd vs))).2.scene) ∧
      mapGet (applyHistOps [HistOp.exec (Cmd.extrudeCmd vs), HistOp.undoOp,
          HistOp.redoOp] (m, w)).2.vcs.voxels k =
        mapGet (applyHistOp (m, w)
          (HistOp.exec (Cmd.extrudeCmd vs))).2.vcs.voxels k := by
  have hok : cmdExecute (Cmd.extrudeCmd vs) w = .ok (extCmdApply vs w) := rfl
  have hw1 : (umExecute (Cmd.extrudeCmd vs) m w).2.2 = extCmdApply vs w := by
    simp [umExecute, hu, hr, hok]
  have hredo1 : (umExecute (Cmd.extrudeCmd vs) m w).2.1.redoStack = [] := by
    simp [umExecute, hu, hr, hok]
  have hundo1 : (umExecute (Cmd.extrudeCmd vs) m w).2.1.undoStack =
      (if m.maxHistorySize < (m.undoStack ++ [Cmd.extrudeCmd vs]).length
        then (m.undoStack ++ [Cmd.extrudeCmd vs]).tail
        else m.undoStack ++ [Cmd.extrudeCmd vs]) := by
    simp [umExecute, hu, hr, hok]
  have hlast1 : (umExecute (Cmd.extrudeCmd vs) m w).2.1.undoStack.getLast? =
      some (Cmd.extrudeCmd vs) := by
    rw [hundo1]
    exact trim_getLast m.maxHistorySize hM m.undoStack (Cmd.extrudeCmd vs)
  have hw2 : (umUndo (umExecute (Cmd.extrudeCmd vs) m w).2.1
        (umExecute (Cmd.extrudeCmd vs) m w).2.2).2.2 =
      extCmdRevert vs (umExecute (Cmd.extrudeCmd vs) m w).2.2 := by
    simp [umUndo, hlast1, cmdUndo]
  have hredo2 : (umUndo (umExecute (Cmd.extrudeCmd vs) m w).2.1
        (umExecute (Cmd.extrudeCmd vs) m w).2.2).2.1.redoStack =
      (umExecute (Cmd.extrudeCmd vs) m w).2.1.redoStack ++ [Cmd.extrudeCmd vs] := by
    simp [umUndo, hlast1, cmdUndo]
  have hlast2 : (umUndo (umExecute (Cmd.extrudeCmd vs) m w).2.1
        (umExecute (Cmd.extrudeCmd vs) m w).2.2).2.1.redoStack.getLast? =
      some (Cmd.extrudeCmd vs) := by
    rw [hredo2, hredo1]
    simp
  have hw3 : (umRedo (umUndo (umExecute (Cmd.extrudeCmd vs) m w).2.1
          (umExecute (Cmd.extrudeCmd vs) m w).2.2).2.1
        (umUndo (umExecute (Cmd.extrudeCmd vs) m w).2.1
          (umExecute (Cmd.extrudeCmd vs) m w).2.2).2.2).2.2 =
      extCmdApply vs (umUndo (umExecute (Cmd.extrudeCmd vs) m w).2.1
        (umExecute (Cmd.extrudeCmd vs) m w).2.2).2.2 := by
    simp [umRedo, hlast2, cmdExecute]
  intro u k
  have hpipe : (applyHistOps [HistOp.exec (Cmd.extrudeCmd vs), HistOp.undoOp,
      HistOp.redoOp] (m, w)).2 =
      extCmdApply vs (extCmdRevert vs (extCmdApply vs w)) := by
    show (umRedo (umUndo (umExecute (Cmd.extrudeCmd vs) m w).2.1
          (umExecute (Cmd.extrudeCmd vs) m w).2.2).2.1
        (umUndo (umExecute (Cmd.extrudeCmd vs) m w).2.1
          (umExecute (Cmd.extrudeCmd vs) m w).2.2).2.2).2.2 = _
    rw [hw3, hw2, hw1]
  have hexec : (applyHistOp (m, w) (HistOp.exec (Cmd.extrudeCmd vs))).2 =
      extCmdApply vs w := by
    show (umExecute (Cmd.extrudeCmd vs) m w).2.2 = _
    exact hw1
  rw [hpipe, hexec]
  obtain ⟨hK1, hS1, hN1⟩ := extCmdApply_vcs vs w hkeys hfree hdist
  have hscene1 : (extCmdApply vs w).scene.Nodup :=
    extCmdApply_scene_nodup vs w hscene
  obtain ⟨_, hrev_mem⟩ := extCmdRevert_scene vs (extCmdApply vs w) hscene1
  obtain ⟨hK2, hR1, hR0⟩ := extCmdRevert_vcs vs (extCmdApply vs w) hK1
  have hfree2 : ∀ v ∈ vs, ∀ v',
      mapGet (extCmdRevert vs (extCmdApply vs w)).vcs.voxels v.pos = some v' →
        v' = v := by
    intro v hv v' hget
    cases hf : vs.find? (fun x => decide (x.pos = v.pos)) with
    | none =>
        have hcontra := List.find?_eq_none.mp hf v hv
        simp at hcontra
    | some u' =>
        rw [hR1 v.pos u' hf] at hget
        exact absurd hget (by simp)
  obtain ⟨hK3, hS3, hN3⟩ :=
    extCmdApply_vcs vs (extCmdRevert vs (extCmdApply vs w)) hK2 hfree2 hdist
  constructor
  · rw [extCmdApply_scene_mem vs (extCmdRevert vs (extCmdApply vs w)) u,
      hrev_mem u, extCmdApply_scene_mem vs w u]
    tauto
  · cases hf : vs.find? (fun x => decide (x.pos = k)) with
    | some u' => rw [hS3 k u' hf, hS1 k u' hf]
    | none => rw [hN3 k hf, hR0 k hf]

/-- Witness for `C3_undo_redo_restores`: a one-voxel extrude command on the
empty initial world, checked at that voxel and its cell. -/
theorem C3_undo_redo_restores_witness :
    ((⟨7, ⟨1, 2, 3⟩⟩ : Voxel) ∈ (applyHistOps
        [HistOp.exec (Cmd.extrudeCmd [⟨7, ⟨1, 2, 3⟩⟩]), HistOp.undoOp,
          HistOp.redoOp] (UndoMgr.init, XWorld.init)).2.scene ↔
      (⟨7, ⟨1, 2, 3⟩⟩ : Voxel) ∈ (applyHistOp (UndoMgr.init, XWorld.init)
        (HistOp.exec (Cmd.extrudeCmd [⟨7, ⟨1, 2, 3⟩⟩]))).2.scene) ∧
    mapGet (applyHistOps [HistOp.exec (Cmd.extrudeCmd [⟨7, ⟨1, 2, 3⟩⟩]),
        HistOp.undoOp, HistOp.redoOp]
        (UndoMgr.init, XWorld.init)).2.vcs.voxels ⟨1, 2, 3⟩ =
      mapGet (applyHistOp (UndoMgr.init, XWorld.init)
        (HistOp.exec (Cmd.extrudeCmd [⟨7, ⟨1, 2, 3⟩⟩]))).2.vcs.voxels ⟨1, 2, 3⟩ :=
  C3_undo_redo_restores [⟨7, ⟨1, 2, 3⟩⟩] UndoMgr.init XWorld.init rfl rfl
    (by decide) (by decide) (by decide) (by decide)
    (by simp [XWorld.init, mapGet]) ⟨7, ⟨1, 2, 3⟩⟩ ⟨1, 2, 3⟩

end VoxelEditor
